import Mathlib

/-!
Verification of the jsonapi marshaling engine (response.go) and its scalar
time codecs (attributes.go) against the natural-language specification.

The development is a shallow embedding:
* Go `int64` arithmetic is `Int` with an explicit two's-complement wrap
  (`wrap64`); Go's `/` and `%` (truncation toward zero, used here only with
  positive divisors) are `goDiv`/`goMod`.
* `time.Time` is `GoTime`: seconds since the Unix epoch, nanoseconds within
  the second, and the location's zone offset in seconds east of UTC.
* JSON text encoding/decoding (`encoding/json`, `strconv`) is the trusted
  primitive the spec declares it to be: the wire value of the millisecond
  codec is the `Int` whose decimal text is sent (strconv's decimal
  formatting/parsing is a bijection between in-range `Int`s and their texts),
  and the wire value of the calendar codec is `ISOWire`, the information
  content of the formatted layout string.
* The reflective traversal of `visitModelNode` is a recursion over a deep
  model-value type (`Model`/`Fields`/`FieldVal`) that mirrors the runtime
  shapes the Go code dispatches on; Go maps accumulated in insertion order
  are association lists.
-/

set_option maxHeartbeats 1600000

/-! ## Go integer arithmetic -/

/-- Go's integer division for a positive divisor: truncation toward zero
(Lean's `/` on `Int` is Euclidean division, so the negative case is
adjusted explicitly). -/
def goDiv (a b : Int) : Int := if 0 ≤ a then a / b else -((-a) / b)

/-- Go's `%` for a positive divisor: the remainder matching `goDiv`,
so `b * goDiv a b + goMod a b = a`. -/
def goMod (a b : Int) : Int := a - b * goDiv a b

/-- Two's-complement wrap-around of Go `int64` arithmetic. -/
def wrap64 (x : Int) : Int := (x + 2 ^ 63) % 2 ^ 64 - 2 ^ 63

theorem goDiv_add_goMod (a b : Int) : b * goDiv a b + goMod a b = a := by
  unfold goMod; ring

theorem goMod_nonneg_eq (a b : Int) (h : 0 ≤ a) : goMod a b = a % b := by
  unfold goMod goDiv
  rw [if_pos h, Int.emod_def]

theorem goMod_neg_eq (a b : Int) (h : ¬ 0 ≤ a) : goMod a b = -((-a) % b) := by
  unfold goMod goDiv
  rw [if_neg h, Int.emod_def]
  ring

theorem goMod_bounds (a b : Int) (hb : 0 < b) : -b < goMod a b ∧ goMod a b < b := by
  by_cases h : 0 ≤ a
  · rw [goMod_nonneg_eq a b h]
    have h1 := Int.emod_nonneg a (by omega : b ≠ 0)
    have h2 := Int.emod_lt_of_pos a hb
    omega
  · rw [goMod_neg_eq a b h]
    have h1 := Int.emod_nonneg (-a) (by omega : b ≠ 0)
    have h2 := Int.emod_lt_of_pos (-a) hb
    omega

theorem goDiv_small (a b : Int) (hb : 0 < b) (h1 : -b < a) (h2 : a < b) :
    goDiv a b = 0 := by
  unfold goDiv
  split
  · exact Int.ediv_eq_zero_of_lt (by omega) h2
  · rw [Int.ediv_eq_zero_of_lt (by omega) (by omega)]
    ring

theorem goDiv_mul_cancel (a b : Int) (hb : 0 < b) : goDiv (a * b) b = a := by
  unfold goDiv
  have hne : b ≠ 0 := by omega
  split
  · exact Int.mul_ediv_cancel a hne
  · rw [show -(a * b) = -a * b by ring, Int.mul_ediv_cancel (-a) hne, neg_neg]

theorem wrap64_eq_self (x : Int) (h1 : -(2 ^ 63) ≤ x) (h2 : x < 2 ^ 63) :
    wrap64 x = x := by
  unfold wrap64; omega

/-! ## `time.Time` and the two scalar time codecs (attributes.go) -/

/-- A Go `time.Time` instant: `sec` is `t.Unix()` (whole seconds since the
Unix epoch), `nsec` the nanoseconds within that second (`[0, 1e9)` for every
time Go produces), and `off` the zone offset of the time's location in
seconds east of UTC (UTC is offset 0). -/
structure GoTime where
  sec : Int
  nsec : Int
  off : Int
  deriving DecidableEq, Repr

/-- Go `Time.UnixNano()`: `sec*1e9 + nsec` computed in wrapping `int64`
arithmetic (the Go docs: the result is undefined when the instant cannot be
represented in an `int64` of nanoseconds; the implementation wraps). -/
def GoTime.unixNano (t : GoTime) : Int := wrap64 (t.sec * 1000000000 + t.nsec)

/-- Wire content of the quoted ISO8601 layout `2006-01-02T15:04:05Z07:00`:
`wallSec` is the wall-clock datetime the calendar text displays, as seconds
since the epoch (the trusted stdlib formatter renders this count as calendar
digits, a bijection), and `offMin` the displayed zone offset in whole minutes
(the layout records hours and minutes of the offset only; `Z` stands for 0,
and Go prints `Z` exactly when the offset in seconds is 0, which coincides
with `offMin = 0` at this granularity). -/
structure ISOWire where
  wallSec : Int
  offMin : Int
  deriving DecidableEq, Repr

/-- `ISO8601Datetime.MarshalJSON` (attributes.go:23-26): format the time with
the layout — the calendar text shows the wall clock `sec + off` at second
granularity (the layout has no fractional digits, so `nsec` is dropped), and
the zone offset truncated to whole minutes (Go computes `offset / 60` with
`int64` division toward zero). `Format` prints each field with as many digits
as the value needs, zero-padded to the layout's width: the year to at least
four digits (more when the year exceeds 9999, a leading `-` when negative)
and the offset hours to at least two. `json.Marshal` of the resulting string
cannot fail. -/
def ISO8601Datetime.marshalJSON (t : GoTime) : ISOWire :=
  ⟨t.sec + t.off, goDiv t.off 60⟩

/-- The JSON text given to `ISO8601Datetime.UnmarshalJSON`: the literal
`null`, a string `Format` produces from the layout (carrying this wire
content), or anything else (which `time.Parse` rejects). -/
inductive IsoData where
  | nullLit
  | wire (w : ISOWire)
  | malformed
  deriving DecidableEq, Repr

/-- Seconds since the Unix epoch at 0000-01-01T00:00:00 and at
10000-01-01T00:00:00 of Go's proleptic Gregorian calendar: the displayed
wall-clock year has exactly four digits (what `time.Parse`'s layout fragment
`2006` consumes) iff `wallSec` lies in `[isoYearMin, isoYearMax)`. -/
def isoYearMin : Int := -62167219200

def isoYearMax : Int := 253402300800

/-- Whether `time.Parse` accepts the text `Format` produced for this wire
content: the layout fragment `2006` consumes exactly four year digits (and no
sign), and `Z07:00` exactly two offset-hour digits, so a displayed year
outside 0000–9999 or displayed offset hours above 99 (|offset minutes| ≥
6000) make `Parse` fail on the extra characters. -/
def ISOWire.parsesBack (w : ISOWire) : Bool :=
  decide (isoYearMin ≤ w.wallSec) && decide (w.wallSec < isoYearMax)
    && decide (-6000 < w.offMin) && decide (w.offMin < 6000)

/-- `ISO8601Datetime.UnmarshalJSON` (attributes.go:29-38): the literal `null`
is ignored (the receiver keeps its prior value); otherwise `time.Parse` reads
the text against the quoted layout — failing with a parse error when a
displayed field overflows its layout width (see `ISOWire.parsesBack`) — and
reconstructs the instant from the displayed wall clock and offset, with zero
nanoseconds and a fixed zone of the displayed offset. -/
def ISO8601Datetime.unmarshalJSON (data : IsoData) (t : GoTime) : Except Unit GoTime :=
  match data with
  | .nullLit => .ok t
  | .wire w =>
    if w.parsesBack then .ok ⟨w.wallSec - w.offMin * 60, 0, w.offMin * 60⟩
    else .error ()
  | .malformed => .error ()

/-- `UnixMilli.MarshalJSON` (attributes.go:51-53):
`t.UnixNano() / int64(time.Millisecond)` — the wrapped nanosecond count
divided (toward zero) by 1e6. The decimal text of this `Int` is the wire. -/
def UnixMilli.marshalJSON (t : GoTime) : Int := goDiv t.unixNano 1000000

/-- The JSON text given to `UnixMilli.UnmarshalJSON`: the literal `null`, the
decimal text of an integer, or anything else (rejected by
`strconv.ParseInt`). -/
inductive MilliData where
  | nullLit
  | num (v : Int)
  | malformed
  deriving DecidableEq, Repr

/-- `time.Unix(sec, nsec)` followed by `.In(time.UTC)`: normalize `nsec` into
`[0, 1e9)` adjusting `sec` (Go's `Unix` uses `nsec / 1e9` toward zero and a
final negative fix-up), and set the location to UTC (offset 0). -/
def timeUnixUTC (sec nsec : Int) : GoTime :=
  if nsec < 0 ∨ 1000000000 ≤ nsec then
    let n := goDiv nsec 1000000000
    let sec' := sec + n
    let nsec' := nsec - n * 1000000000
    if nsec' < 0 then ⟨sec' - 1, nsec' + 1000000000, 0⟩ else ⟨sec', nsec', 0⟩
  else ⟨sec, nsec, 0⟩

/-- `UnixMilli.UnmarshalJSON` (attributes.go:56-71): the literal `null` is
ignored; otherwise `strconv.ParseInt(s, 10, 64)` parses the decimal (failing
outside the `int64` range), and the time is rebuilt with
`time.Unix(v/1000, v%1000 * 1e6).In(time.UTC)`. -/
def UnixMilli.unmarshalJSON (data : MilliData) (t : GoTime) : Except Unit GoTime :=
  match data with
  | .nullLit => .ok t
  | .num v =>
    if v < -(2 ^ 63) ∨ 2 ^ 63 - 1 < v then .error ()
    else .ok (timeUnixUTC (goDiv v 1000) (goMod v 1000 * 1000000))
  | .malformed => .error ()

theorem timeUnixUTC_spec (sec nsec : Int) (h1 : -1000000000 < nsec)
    (h2 : nsec < 1000000000) :
    (timeUnixUTC sec nsec).sec * 1000000000 + (timeUnixUTC sec nsec).nsec
        = sec * 1000000000 + nsec
      ∧ 0 ≤ (timeUnixUTC sec nsec).nsec ∧ (timeUnixUTC sec nsec).nsec < 1000000000
      ∧ (timeUnixUTC sec nsec).off = 0 := by
  have hz : goDiv nsec 1000000000 = 0 := goDiv_small _ _ (by omega) h1 h2
  unfold timeUnixUTC
  split
  · simp only [hz]
    split <;> simp <;> omega
  · simp
    omega

/-! ## Claim C5 — decoding `null` is a no-op for both codecs -/

/-- C5: for both time codecs (ISO8601Datetime and UnixMilli) and every prior
value of the target, `UnmarshalJSON` applied to the literal `null` returns no
error and leaves the target's stored time exactly as it was. -/
theorem C5_null_noop (t : GoTime) :
    ISO8601Datetime.unmarshalJSON IsoData.nullLit t = Except.ok t
      ∧ UnixMilli.unmarshalJSON MilliData.nullLit t = Except.ok t :=
  ⟨rfl, rfl⟩

/-! ## Claim C2 — codec round-trips -/

/-- C10 counterexample: `n = 10^13` ms (year ≈ 2286) is a valid `int64`
millisecond count; decoding succeeds and yields UTC, but re-encoding goes
through wrapping `UnixNano` arithmetic and returns `-8446744073709`, not
`n`. -/
theorem C10_counterexample :
    UnixMilli.unmarshalJSON (MilliData.num 10000000000000) ⟨0, 0, 0⟩
      = Except.ok ⟨10000000000, 0, 0⟩
    ∧ UnixMilli.marshalJSON ⟨10000000000, 0, 0⟩ = -8446744073709
    ∧ ((-8446744073709 : Int) = 10000000000000 → False) := by
  refine ⟨rfl, by decide, by decide⟩

/-- C10 (amended): for every `int64` millisecond count `n` and every prior
target value, decoding the decimal text of `n` succeeds and the result's
location is UTC; and whenever `n * 10^6` — the instant in nanoseconds — also
fits an `int64` (years 1678..2262), re-encoding yields exactly `n`. -/
theorem C10_decode_encode_amended (n : Int) (t : GoTime)
    (h1 : -(2 ^ 63) ≤ n) (h2 : n ≤ 2 ^ 63 - 1) :
    ∃ u, UnixMilli.unmarshalJSON (MilliData.num n) t = Except.ok u
      ∧ u.off = 0
      ∧ (-(2 ^ 63) ≤ n * 1000000 → n * 1000000 < 2 ^ 63 →
          UnixMilli.marshalJSON u = n) := by
  have hmod := goMod_bounds n 1000 (by norm_num)
  have hspec := timeUnixUTC_spec (goDiv n 1000) (goMod n 1000 * 1000000)
    (by omega) (by omega)
  refine ⟨timeUnixUTC (goDiv n 1000) (goMod n 1000 * 1000000), ?_, hspec.2.2.2, ?_⟩
  · simp only [UnixMilli.unmarshalJSON]
    rw [if_neg (by omega)]
  · intro hr0 hr1
    have hinst : (timeUnixUTC (goDiv n 1000) (goMod n 1000 * 1000000)).sec * 1000000000
        + (timeUnixUTC (goDiv n 1000) (goMod n 1000 * 1000000)).nsec = n * 1000000 := by
      have hdm := goDiv_add_goMod n 1000
      have hsp := hspec.1
      omega
    unfold UnixMilli.marshalJSON GoTime.unixNano
    rw [hinst, wrap64_eq_self _ hr0 hr1, goDiv_mul_cancel n 1000000 (by norm_num)]

/-- C10 witness: the amended statement at `n = 1257894000000` (an in-range
millisecond count) and an arbitrary prior target. -/
theorem C10_decode_encode_witness :
    (-(2 ^ 63) ≤ (1257894000000 : Int) ∧ (1257894000000 : Int) ≤ 2 ^ 63 - 1)
    ∧ ∃ u, UnixMilli.unmarshalJSON (MilliData.num 1257894000000) ⟨5, 6, 7⟩
        = Except.ok u
      ∧ u.off = 0
      ∧ (-(2 ^ 63) ≤ (1257894000000 : Int) * 1000000
          → (1257894000000 : Int) * 1000000 < 2 ^ 63
          → UnixMilli.marshalJSON u = 1257894000000) :=
  ⟨⟨by decide, by decide⟩,
    C10_decode_encode_amended 1257894000000 ⟨5, 6, 7⟩ (by decide) (by decide)⟩

/-! ## The document model (Node, payloads) and the annotated object model

The `Node`, `OnePayload`, `ManyPayload`, `RelationshipOneNode` and
`RelationshipManyNode` struct declarations and the `clientIDAnnotation`
constant live in repository files outside src/ (only response.go, which uses
them, is given); their shapes are taken from that usage and from the spec's
"Node Model" and wire-shape sections. Go maps (`Attributes`,
`Relationships`, the included accumulator) are association lists in map
insertion order — the spec leaves map enumeration order unspecified, and
this model fixes it to insertion order; claims compare the accumulator as a
set. A Go nil map / nil slice is `none`, distinct from an empty one. -/

/-- A runtime value of a non-time, non-struct field: the shapes the primary
switch in visitModelNode (response.go:356-368) and the attribute zero-value
comparison (response.go:412-427) dispatch on. -/
inductive Prim where
  | str (s : String)
  | int (n : Int)
  | int64 (n : Int)
  | uint64 (n : Nat)
  | boolv (b : Bool)
  deriving DecidableEq, Repr

/-- A value stored in `Node.Attributes` (or a meta node): a verbatim
non-time value, `t.Unix()` of a time value, an explicit JSON null for a nil
`*time.Time` without omitempty, or a coarse stand-in for the
relation-shaped values no claim exercises. -/
inductive AttrVal where
  | ofPrim (p : Prim)
  | timeSec (n : Int)
  | nullv
  | other
  deriving DecidableEq, Repr

mutual
/-- Modelled from the spec: one JSON:API resource node — `type`, `id`,
optional client-generated id, attributes mapping and relationships mapping
(`Node` in the repository lies outside src/; its fields are exactly the ones
response.go reads and writes). `none` is Go's nil map. -/
inductive Node where
  | mk (ty id cid : String) (attrs : Option (List (String × AttrVal)))
      (rels : Option Rels) : Node
  deriving Repr
/-- The `Relationships map[string]interface{}` in map insertion order. -/
inductive Rels where
  | nil : Rels
  | cons (name : String) (v : RelVal) (rest : Rels) : Rels
  deriving Repr
/-- A relationship linkage: `*RelationshipOneNode` (single reference) or
`*RelationshipManyNode` (ordered list of references). -/
inductive RelVal where
  | one (d : Node) : RelVal
  | many (d : NodeList) : RelVal
  deriving Repr
/-- A `[]*Node`. -/
inductive NodeList where
  | nil : NodeList
  | cons (n : Node) (rest : NodeList) : NodeList
  deriving Repr
end

mutual
/-- An annotated Go struct instance (a `*SomeStruct` passed to the marshal
entry points): its fields in declaration order. -/
inductive Model where
  | mk (fields : Fields) : Model
  deriving Repr
/-- The declared fields: each carries its raw `jsonapi:"..."` tag (tag `""`
stands for an absent tag, which Go's `Tag.Get` returns as the empty string)
and its runtime value. -/
inductive Fields where
  | nil : Fields
  | cons (tag : String) (v : FieldVal) (rest : Fields) : Fields
  deriving Repr
/-- A field's runtime value, covering the shapes response.go dispatches on:
plain comparable values, `time.Time`, `*time.Time` (nil or set), a slice of
annotated structs, and a pointer to an annotated struct (nil or set). -/
inductive FieldVal where
  | prim (p : Prim) : FieldVal
  | timeVal (t : GoTime) : FieldVal
  | timePtrNil : FieldVal
  | timePtrSome (t : GoTime) : FieldVal
  | relSlice (ms : Models) : FieldVal
  | relPtrNil : FieldVal
  | relPtrSome (m : Model) : FieldVal
  deriving Repr
/-- A `[]*SomeStruct` of annotated structs. -/
inductive Models where
  | nil : Models
  | cons (m : Model) (rest : Models) : Models
  deriving Repr
end

/-- The marshaling errors of response.go:14-25. `badTag` is
ErrBadJSONAPIStructTag (the spec's BadFieldSpec), `badID` is
ErrBadJSONAPIID (the spec's BadPrimaryKeyType). -/
inductive Err where
  | badTag
  | badID
  deriving DecidableEq, Repr

/-- The included accumulator `map[string]*Node`, in insertion order. -/
abbrev Inc := List (String × Node)

/-- Modelled from the spec: the `clientIDAnnotation` constant (declared
outside src/) is the tag grammar's client-id role marker, `"client-id"`. -/
def clientIDTag : String := "client-id"

def Node.ty : Node → String | .mk t _ _ _ _ => t
def Node.id : Node → String | .mk _ i _ _ _ => i
def Node.cid : Node → String | .mk _ _ c _ _ => c
def Node.attrs : Node → Option (List (String × AttrVal)) | .mk _ _ _ a _ => a
def Node.rels : Node → Option Rels | .mk _ _ _ _ r => r

def Node.withID : Node → String → Node | .mk t _ c a r, i => .mk t i c a r
def Node.withTy : Node → String → Node | .mk _ i c a r, t => .mk t i c a r
def Node.withCid : Node → String → Node | .mk t i _ a r, c => .mk t i c a r
def Node.withAttrs : Node → Option (List (String × AttrVal)) → Node
  | .mk t i c _ r, a => .mk t i c a r
def Node.withRels : Node → Option Rels → Node | .mk t i c a _, r => .mk t i c a r

/-- The accumulator key `fmt.Sprintf("%s,%s", n.Type, n.ID)` of
appendIncluded (response.go:533). -/
def incKey (n : Node) : String := n.ty ++ "," ++ n.id

def hasKey (inc : Inc) (k : String) : Bool := inc.any (fun p => p.1 == k)

/-- `appendIncluded` (response.go:529-541) for one node: insert under its
`(type, id)` key unless the key is already present (the first-inserted node
is retained). -/
def appendIncluded (inc : Inc) (n : Node) : Inc :=
  if hasKey inc (incKey n) then inc else inc ++ [(incKey n, n)]

/-- The sideload loop of the slice-relationship branch
(response.go:452-455): append every visited node to the accumulator. -/
def appendIncludedList (inc : Inc) : NodeList → Inc
  | .nil => inc
  | .cons n rest => appendIncludedList (appendIncluded inc n) rest

/-- `toShallowNode` (response.go:502-507): only `ID` and `Type` are copied;
clientID, attributes and relationships stay zero/nil. -/
def toShallowNode (n : Node) : Node := .mk n.ty n.id "" none none

/-- The `shallowNodes` loop (response.go:452-455): replace each visited node
by its shallow reference, keeping order. -/
def NodeList.mapShallow : NodeList → NodeList
  | .nil => .nil
  | .cons n rest => .cons (toShallowNode n) rest.mapShallow

/-- Assignment `node.Relationships[name] = v`: replace the value of an
existing key, else append. -/
def Rels.set : Rels → String → RelVal → Rels
  | .nil, k, v => .cons k v .nil
  | .cons k' v' r, k, v => if k' = k then .cons k' v r else .cons k' v' (Rels.set r k v)

/-- Assignment `node.Attributes[name] = v` (same map semantics). -/
def setAttr : List (String × AttrVal) → String → AttrVal → List (String × AttrVal)
  | [], k, v => [(k, v)]
  | (k', v') :: r, k, v => if k' = k then (k', v) :: r else (k', v') :: setAttr r k v

/-- `t.Unix()` of Go's zero `time.Time` (January 1, year 1, 00:00:00 UTC). -/
def goZeroTimeSec : Int := -62135596800

/-- Go `Time.IsZero()`: the zero time instant (location-independent). -/
def GoTime.isZero (t : GoTime) : Bool := t.sec == goZeroTimeSec && t.nsec == 0

/-- Go `Time.Unix()`: whole seconds since the epoch. -/
def GoTime.unix (t : GoTime) : Int := t.sec

/-- Whether `fieldValue.Interface() == reflect.Zero(fieldType).Interface()`
(response.go:414-419) — the runtime value equals its type's zero value. -/
def Prim.isZeroValue : Prim → Bool
  | .str s => s == ""
  | .int n => n == 0
  | .int64 n => n == 0
  | .uint64 n => n == 0
  | .boolv b => b == false

/-- `fieldValue.String()` of the client-id branch (response.go:372): the
string itself for a string field; for any other kind Go's reflect returns
the non-empty placeholder `"<T Value>"`, modeled as one fixed non-empty
string (no claim exercises a non-string client-id field). -/
def FieldVal.goString : FieldVal → String
  | .prim (.str s) => s
  | _ => "<Value>"

/-- `strings.Split` restricted to the one-character separator response.go
uses: split `cs` on `sep`, never returning an empty list. -/
def splitChar (sep : Char) : List Char → List (List Char)
  | [] => [[]]
  | c :: cs =>
    let r := splitChar sep cs
    if c = sep then [] :: r
    else match r with
      | [] => [[c]]
      | g :: gs => (c :: g) :: gs

/-- `strings.Split(tag, ",")` (response.go:338). -/
def goSplit (s : String) (sep : Char) : List String :=
  (splitChar sep s.toList).map (fun cs => String.mk cs)

mutual

/-- `visitModelNode(model, included, sideload)` (response.go:322-500): build
a fresh Node by walking the model's fields; the accumulator is threaded
through and returned even on error (Go mutates it through a pointer). -/
def visitModelNode (m : Model) (inc : Inc) (sideload : Bool) : Except Err Node × Inc :=
  match m with
  | .mk fs => visitFields fs (.mk "" "" "" none none) none inc sideload

/-- The field loop of visitModelNode (response.go:329-493). `er` is the
loop's error variable: branches that `break` out of the loop return
immediately; the primary-key default branch only breaks the type switch, so
it records `er` and keeps iterating (`node.Type = args[1]` still runs), and
the loop's end returns `er` if set. -/
def visitFields (fs : Fields) (node : Node) (er : Option Err) (inc : Inc) (sl : Bool) :
    Except Err Node × Inc :=
  match fs with
  | .nil => (match er with | some e => .error e | none => .ok node, inc)
  | .cons tag v rest =>
    if tag = "" then visitFields rest node er inc sl else
    if (goSplit tag ',').length < 1 then (.error .badTag, inc) else
    if ((goSplit tag ',').headD "" = clientIDTag ∧ (goSplit tag ',').length ≠ 1)
        ∨ ((goSplit tag ',').headD "" ≠ clientIDTag ∧ (goSplit tag ',').length < 2) then
      (.error .badTag, inc)
    else if (goSplit tag ',').headD "" = "primary" then
      match v with
      | .prim (.str s) =>
        visitFields rest ((node.withID s).withTy ((goSplit tag ',').getD 1 "")) er inc sl
      | .prim (.int n) =>
        visitFields rest
          ((node.withID (toString n)).withTy ((goSplit tag ',').getD 1 "")) er inc sl
      | .prim (.int64 n) =>
        visitFields rest
          ((node.withID (toString n)).withTy ((goSplit tag ',').getD 1 "")) er inc sl
      | .prim (.uint64 n) =>
        visitFields rest
          ((node.withID (toString n)).withTy ((goSplit tag ',').getD 1 "")) er inc sl
      | _ =>
        visitFields rest (node.withTy ((goSplit tag ',').getD 1 "")) (some .badID) inc sl
    else if (goSplit tag ',').headD "" = clientIDTag then
      visitFields rest (if v.goString ≠ "" then node.withCid v.goString else node) er inc sl
    else if (goSplit tag ',').headD "" = "attr" then
      match v with
      | .timeVal t =>
        if t.isZero then visitFields rest (node.withAttrs (some (node.attrs.getD []))) er inc sl
        else
          visitFields rest
            (node.withAttrs (some (setAttr (node.attrs.getD [])
              ((goSplit tag ',').getD 1 "") (.timeSec t.unix)))) er inc sl
      | .timePtrNil =>
        if (goSplit tag ',').length > 2 && (goSplit tag ',').getD 2 "" == "omitempty" then
          visitFields rest (node.withAttrs (some (node.attrs.getD []))) er inc sl
        else
          visitFields rest
            (node.withAttrs (some (setAttr (node.attrs.getD [])
              ((goSplit tag ',').getD 1 "") .nullv))) er inc sl
      | .timePtrSome t =>
        if t.isZero
            && ((goSplit tag ',').length > 2 && (goSplit tag ',').getD 2 "" == "omitempty") then
          visitFields rest (node.withAttrs (some (node.attrs.getD []))) er inc sl
        else
          visitFields rest
            (node.withAttrs (some (setAttr (node.attrs.getD [])
              ((goSplit tag ',').getD 1 "") (.timeSec t.unix)))) er inc sl
      | .prim p =>
        if ((goSplit tag ',').length > 2 && (goSplit tag ',').getD 2 "" == "omitempty")
            && p.isZeroValue then
          visitFields rest (node.withAttrs (some (node.attrs.getD []))) er inc sl
        else
          visitFields rest
            (node.withAttrs (some (setAttr (node.attrs.getD [])
              ((goSplit tag ',').getD 1 "") (.ofPrim p)))) er inc sl
      | _ =>
        visitFields rest
          (node.withAttrs (some (setAttr (node.attrs.getD [])
            ((goSplit tag ',').getD 1 "") .other))) er inc sl
    else if (goSplit tag ',').headD "" = "relation" then
      match v with
      | .relSlice .nil => visitFields rest node er inc sl
      | .relPtrNil => visitFields rest node er inc sl
      | .relSlice (.cons m0 ms) =>
        match visitMany (.cons m0 ms) inc sl with
        | (.ok ds, inc1) =>
          if sl then
            visitFields rest
              (node.withRels (some ((node.rels.getD .nil).set
                ((goSplit tag ',').getD 1 "") (.many ds.mapShallow))))
              er (appendIncludedList inc1 ds) sl
          else
            visitFields rest
              (node.withRels (some ((node.rels.getD .nil).set
                ((goSplit tag ',').getD 1 "") (.many ds))))
              er inc1 sl
        | (.error e, inc1) => (.error e, inc1)
      | .relPtrSome m =>
        match visitModelNode m inc sl with
        | (.ok rel, inc1) =>
          if sl then
            visitFields rest
              (node.withRels (some ((node.rels.getD .nil).set
                ((goSplit tag ',').getD 1 "") (.one (toShallowNode rel)))))
              er (appendIncluded inc1 rel) sl
          else
            visitFields rest
              (node.withRels (some ((node.rels.getD .nil).set
                ((goSplit tag ',').getD 1 "") (.one rel))))
              er inc1 sl
        | (.error e, inc1) => (.error e, inc1)
      | _ => visitFields rest node er inc sl
    else (.error .badTag, inc)

/-- The loop of `visitModelNodeRelationships` (response.go:509-527): visit
every element, stopping at the first error (the accumulator keeps the
mutations already made). -/
def visitMany (ms : Models) (inc : Inc) (sl : Bool) : Except Err NodeList × Inc :=
  match ms with
  | .nil => (.ok .nil, inc)
  | .cons m rest =>
    match visitModelNode m inc sl with
    | (.error e, inc1) => (.error e, inc1)
    | (.ok n, inc1) =>
      match visitMany rest inc1 sl with
      | (.error e, inc2) => (.error e, inc2)
      | (.ok ns, inc2) => (.ok (.cons n ns), inc2)

end

/-- `nodeMapValues` (response.go:543-554): the accumulator's nodes (Go's map
iteration order is unspecified; this model enumerates insertion order). -/
def nodeMapValues (inc : Inc) : List Node := inc.map (fun p => p.2)

/-- Modelled from the spec: `OnePayload` (declared outside src/) — the
single-resource envelope `{data, included}` exactly as MarshalOne fills it. -/
structure OnePayload where
  data : Node
  included : List Node
  deriving Repr

/-- Modelled from the spec: `ManyPayload` (declared outside src/) — the
collection envelope `{data, included, meta}`. `data` is a Go `[]*Node`:
`none` is the nil slice (JSON null), `some []` the explicit empty list
(JSON `[]`). -/
structure ManyPayload where
  data : Option (List Node)
  included : List Node
  meta : Option (List (String × AttrVal))
  deriving Repr

/-- `MarshalOne` (response.go:71-83): fresh accumulator, visit with
sideloading, error aborts with no payload; otherwise the payload wraps the
root node and the accumulator's values. -/
def MarshalOne (m : Model) : Except Err OnePayload :=
  match visitModelNode m [] true with
  | (.ok n, inc) => .ok ⟨n, nodeMapValues inc⟩
  | (.error e, _) => .error e

/-- `visitMetaNode` (response.go:238-320): flat attribute-style extraction
over a meta object's fields; every error site breaks the loop immediately.
The meta tag grammar is `name[,omitempty]` (one or two components, a second
component other than `omitempty` is an error). -/
def visitMetaNode (fs : Fields) (node : List (String × AttrVal)) :
    Except Err (List (String × AttrVal)) :=
  match fs with
  | .nil => .ok node
  | .cons tag v rest =>
    if tag = "" then visitMetaNode rest node else
    let args := goSplit tag ','
    if args.length < 1 ∨ 2 < args.length then .error .badTag else
    let name := args.headD ""
    let omitEmpty := args.length == 2 && args.getD 1 "" == "omitempty"
    if args.length == 2 && !omitEmpty then .error .badTag else
    match v with
    | .timeVal t =>
      if t.isZero then visitMetaNode rest node
      else visitMetaNode rest (setAttr node name (.timeSec t.unix))
    | .timePtrNil =>
      if omitEmpty then visitMetaNode rest node
      else visitMetaNode rest (setAttr node name .nullv)
    | .timePtrSome t =>
      if t.isZero && omitEmpty then visitMetaNode rest node
      else visitMetaNode rest (setAttr node name (.timeSec t.unix))
    | .prim p =>
      if omitEmpty && p.isZeroValue then visitMetaNode rest node
      else visitMetaNode rest (setAttr node name (.ofPrim p))
    | _ => visitMetaNode rest (setAttr node name .other)

/-- The model loop of `marshalMany` (response.go:180-188): visit each model
with the shared accumulator, appending each root node to `data` (appending
to a nil slice makes it non-nil); the first error aborts the whole call. -/
def marshalManyLoop (ms : List Model) (data : Option (List Node)) (inc : Inc) :
    Except Err (Option (List Node) × Inc) :=
  match ms with
  | [] => .ok (data, inc)
  | m :: rest =>
    match visitModelNode m inc true with
    | (.error e, _) => .error e
    | (.ok n, inc1) => marshalManyLoop rest (some (data.getD [] ++ [n])) inc1

/-- `marshalMany(models, meta)` (response.go:176-208): run the loop from a
nil `data` slice and a fresh accumulator; an empty input is replaced by the
explicit empty slice (`make([]*Node, 0)`); then assemble the payload and,
if a meta object is given, extract and attach the meta node (a meta error
aborts the call). -/
def marshalMany (models : List Model) (meta : Option Fields) : Except Err ManyPayload :=
  match marshalManyLoop models none [] with
  | .error e => .error e
  | .ok (data, inc) =>
    let data := if models.length = 0 then some [] else data
    let payload : ManyPayload := ⟨data, nodeMapValues inc, none⟩
    match meta with
    | none => .ok payload
    | some mfs =>
      match visitMetaNode mfs [] with
      | .error e => .error e
      | .ok mnode => .ok ⟨payload.data, payload.included, some mnode⟩

/-- `MarshalMany` (response.go:172-174): `marshalMany(models, nil)`. -/
def MarshalMany (models : List Model) : Except Err ManyPayload :=
  marshalMany models none

/-! ## Sideload invariants (claim C1)

Well-formedness of what the sideloading traversal builds: every relationship
linkage is a shallow `(type, id)` reference whose key is present in the
accumulator, resource types contain no comma (they come from tag components,
which a comma split cannot produce a comma in — this makes the accumulator
key `type ++ "," ++ id` injective on `(type, id)`), and the accumulator maps
pairwise-distinct keys, each to a node bearing that key. -/

def keys (inc : Inc) : List String := inc.map (fun p => p.1)

/-- The resource type contains no comma. -/
def Node.tyFree (n : Node) : Bool := !(n.ty.toList.contains ',')

/-- A shallow reference: no clientID, nil attributes, nil relationships. -/
def Node.isShallow (n : Node) : Bool := n.cid == "" && n.attrs.isNone && n.rels.isNone

/-- A linkage target in good sideloaded form: shallow, registered in the
accumulator under its key, with a comma-free type. -/
def targetOK (ks : List String) (d : Node) : Bool :=
  d.isShallow && ks.contains (incKey d) && d.tyFree

def NodeList.allTargets (ks : List String) : NodeList → Bool
  | .nil => true
  | .cons n r => targetOK ks n && r.allTargets ks

def RelVal.goodB (ks : List String) : RelVal → Bool
  | .one d => targetOK ks d
  | .many ds => ds.allTargets ks

def Rels.allGood (ks : List String) : Rels → Bool
  | .nil => true
  | .cons _ v r => v.goodB ks && r.allGood ks

/-- A node the sideloading traversal may emit: comma-free type and all
linkages in good form relative to the accumulator keys `ks`. -/
def Node.goodB (ks : List String) (n : Node) : Bool :=
  n.tyFree && (match n.rels with | none => true | some rs => rs.allGood ks)

def NodeList.allGoodB (ks : List String) : NodeList → Bool
  | .nil => true
  | .cons n r => Node.goodB ks n && r.allGoodB ks

/-- Every node's key is among `ks`. -/
def NodeList.allKeysIn (ks : List String) : NodeList → Bool
  | .nil => true
  | .cons n r => ks.contains (incKey n) && r.allKeysIn ks

/-- Invariant of the included accumulator during a sideloaded traversal. -/
def IncOK (inc : Inc) : Prop :=
  (keys inc).Nodup
    ∧ ∀ p ∈ inc, p.1 = incKey p.2 ∧ Node.goodB (keys inc) p.2 = true

def Rels.toList : Rels → List (String × RelVal)
  | .nil => []
  | .cons k v r => (k, v) :: r.toList

def NodeList.toList : NodeList → List Node
  | .nil => []
  | .cons n r => n :: r.toList

/-- The relationship entries of a node (empty for Go's nil map). -/
def Node.relsList (n : Node) : List (String × RelVal) :=
  match n.rels with
  | none => []
  | some rs => rs.toList

/-- The linkage's referenced nodes. -/
def RelVal.targets : RelVal → List Node
  | .one d => [d]
  | .many ds => ds.toList

/-! ### Helper lemmas for the sideload invariant -/

theorem hasKey_eq_contains (inc : Inc) (k : String) :
    hasKey inc k = (keys inc).contains k := by
  induction inc with
  | nil => rfl
  | cons p r ih =>
    simp only [hasKey, keys, List.any_cons, List.map_cons, List.contains_cons] at *
    rw [show (p.1 == k) = (k == p.1) by simp [BEq.comm], ih]

theorem contains_iff_mem (l : List String) (k : String) :
    l.contains k = true ↔ k ∈ l := List.elem_iff

theorem contains_append_left (l l' : List String) (k : String)
    (h : l.contains k = true) : (l ++ l').contains k = true := by
  rw [contains_iff_mem] at *
  exact List.mem_append_left l' h

theorem keys_append (inc Δ : Inc) : keys (inc ++ Δ) = keys inc ++ keys Δ :=
  List.map_append _ _ _

theorem targetOK_mono (ks ks' : List String) (d : Node)
    (hk : ∀ k, ks.contains k = true → ks'.contains k = true)
    (h : targetOK ks d = true) : targetOK ks' d = true := by
  unfold targetOK at *
  simp only [Bool.and_eq_true] at *
  exact ⟨⟨h.1.1, hk _ h.1.2⟩, h.2⟩

theorem allTargets_mono (ks ks' : List String)
    (hk : ∀ k, ks.contains k = true → ks'.contains k = true) :
    ∀ ds : NodeList, ds.allTargets ks = true → ds.allTargets ks' = true
  | .nil, _ => rfl
  | .cons n r, h => by
    unfold NodeList.allTargets at *
    simp only [Bool.and_eq_true] at *
    exact ⟨targetOK_mono ks ks' n hk h.1, allTargets_mono ks ks' hk r h.2⟩

theorem relVal_goodB_mono (ks ks' : List String) (v : RelVal)
    (hk : ∀ k, ks.contains k = true → ks'.contains k = true)
    (h : v.goodB ks = true) : v.goodB ks' = true := by
  cases v with
  | one d => exact targetOK_mono ks ks' d hk h
  | many ds => exact allTargets_mono ks ks' hk ds h

theorem allGood_mono (ks ks' : List String)
    (hk : ∀ k, ks.contains k = true → ks'.contains k = true) :
    ∀ rs : Rels, rs.allGood ks = true → rs.allGood ks' = true
  | .nil, _ => rfl
  | .cons _ v r, h => by
    unfold Rels.allGood at *
    simp only [Bool.and_eq_true] at *
    exact ⟨relVal_goodB_mono ks ks' v hk h.1, allGood_mono ks ks' hk r h.2⟩

theorem goodB_mono (ks ks' : List String) (n : Node)
    (hk : ∀ k, ks.contains k = true → ks'.contains k = true)
    (h : Node.goodB ks n = true) : Node.goodB ks' n = true := by
  cases n with
  | mk t i c a r =>
    unfold Node.goodB at *
    simp only [Bool.and_eq_true] at *
    refine ⟨h.1, ?_⟩
    cases r with
    | none => rfl
    | some rs => exact allGood_mono ks ks' hk rs h.2

theorem allGoodB_mono (ks ks' : List String)
    (hk : ∀ k, ks.contains k = true → ks'.contains k = true) :
    ∀ ds : NodeList, ds.allGoodB ks = true → ds.allGoodB ks' = true
  | .nil, _ => rfl
  | .cons n r, h => by
    unfold NodeList.allGoodB at *
    simp only [Bool.and_eq_true] at *
    exact ⟨goodB_mono ks ks' n hk h.1, allGoodB_mono ks ks' hk r h.2⟩

theorem allKeysIn_mono (ks ks' : List String)
    (hk : ∀ k, ks.contains k = true → ks'.contains k = true) :
    ∀ ds : NodeList, ds.allKeysIn ks = true → ds.allKeysIn ks' = true
  | .nil, _ => rfl
  | .cons n r, h => by
    unfold NodeList.allKeysIn at *
    simp only [Bool.and_eq_true] at *
    exact ⟨hk _ h.1, allKeysIn_mono ks ks' hk r h.2⟩

theorem contains_keys_append (inc Δ : Inc) (k : String)
    (h : (keys inc).contains k = true) : (keys (inc ++ Δ)).contains k = true := by
  rw [keys_append]
  exact contains_append_left _ _ _ h

/-- Extending the accumulator by a suffix preserves `IncOK`-style goodness
directions used below. -/
theorem goodB_append (inc Δ : Inc) (n : Node)
    (h : Node.goodB (keys inc) n = true) : Node.goodB (keys (inc ++ Δ)) n = true :=
  goodB_mono _ _ n (fun k hk => contains_keys_append inc Δ k hk) h

theorem goodB_withID (ks : List String) (n : Node) (i : String) :
    Node.goodB ks (n.withID i) = Node.goodB ks n := by
  cases n; rfl

theorem goodB_withCid (ks : List String) (n : Node) (c : String) :
    Node.goodB ks (n.withCid c) = Node.goodB ks n := by
  cases n; rfl

theorem goodB_withAttrs (ks : List String) (n : Node)
    (a : Option (List (String × AttrVal))) :
    Node.goodB ks (n.withAttrs a) = Node.goodB ks n := by
  cases n; rfl

theorem goodB_withTy (ks : List String) (n : Node) (t : String)
    (h : Node.goodB ks n = true) (ht : (t.toList.contains ',') = false) :
    Node.goodB ks (n.withTy t) = true := by
  cases n with
  | mk t0 i c a r =>
    unfold Node.goodB Node.withTy Node.tyFree at *
    simp only [Bool.and_eq_true] at *
    refine ⟨?_, h.2⟩
    unfold Node.ty
    rw [Bool.not_eq_true']
    exact ht

theorem goodB_withRels (ks : List String) (n : Node) (rs : Rels)
    (h : n.tyFree = true) (hrs : rs.allGood ks = true) :
    Node.goodB ks (n.withRels (some rs)) = true := by
  cases n with
  | mk t0 i c a r =>
    unfold Node.goodB Node.withRels Node.tyFree at *
    simp only [Bool.and_eq_true]
    exact ⟨h, hrs⟩

theorem tyFree_of_goodB (ks : List String) (n : Node)
    (h : Node.goodB ks n = true) : n.tyFree = true := by
  cases n
  unfold Node.goodB at h
  simp only [Bool.and_eq_true] at h
  exact h.1

theorem relsGetD_allGood (ks : List String) (n : Node)
    (h : Node.goodB ks n = true) : (n.rels.getD Rels.nil).allGood ks = true := by
  cases n with
  | mk t0 i c a r =>
    unfold Node.goodB at h
    simp only [Bool.and_eq_true] at h
    cases r with
    | none => rfl
    | some rs => exact h.2

theorem allGood_set (ks : List String) (k : String) (v : RelVal)
    (hv : v.goodB ks = true) :
    ∀ rs : Rels, rs.allGood ks = true → (rs.set k v).allGood ks = true
  | .nil, _ => by
    simp [Rels.set, Rels.allGood, hv]
  | .cons k' v' r, h => by
    unfold Rels.set
    unfold Rels.allGood at h
    simp only [Bool.and_eq_true] at h
    split
    · unfold Rels.allGood
      simp [hv, h.2]
    · unfold Rels.allGood
      simp only [Bool.and_eq_true]
      exact ⟨h.1, allGood_set ks k v hv r h.2⟩

theorem incKey_toShallowNode (n : Node) : incKey (toShallowNode n) = incKey n := by
  cases n; rfl

theorem isShallow_toShallowNode (n : Node) : (toShallowNode n).isShallow = true := by
  cases n; rfl

theorem tyFree_toShallowNode (n : Node) : (toShallowNode n).tyFree = n.tyFree := by
  cases n; rfl

theorem allTargets_mapShallow (ks : List String) :
    ∀ ds : NodeList, ds.allGoodB ks = true → ds.allKeysIn ks = true →
      (NodeList.mapShallow ds).allTargets ks = true
  | .nil, _, _ => rfl
  | .cons n r, hg, hk => by
    unfold NodeList.allGoodB NodeList.allKeysIn at *
    unfold NodeList.mapShallow NodeList.allTargets
    simp only [Bool.and_eq_true] at *
    refine ⟨?_, allTargets_mapShallow ks r hg.2 hk.2⟩
    unfold targetOK
    simp only [Bool.and_eq_true]
    rw [incKey_toShallowNode, isShallow_toShallowNode, tyFree_toShallowNode]
    exact ⟨⟨rfl, hk.1⟩, tyFree_of_goodB ks n hg.1⟩

theorem splitChar_no_sep (sep : Char) :
    ∀ cs g, g ∈ splitChar sep cs → sep ∉ g
  | [], g, hg => by
    unfold splitChar at hg
    simp at hg
    simp [hg]
  | c :: cs, g, hg => by
    unfold splitChar at hg
    by_cases hc : c = sep
    · rw [if_pos hc] at hg
      rcases List.mem_cons.mp hg with h | h
      · simp [h]
      · exact splitChar_no_sep sep cs g h
    · rw [if_neg hc] at hg
      rcases hr : splitChar sep cs with _ | ⟨g0, gs⟩
      · rw [hr] at hg
        simp at hg
        simp [hg]
        exact fun h => hc h.symm
      · rw [hr] at hg
        rcases List.mem_cons.mp hg with h | h
        · subst h
          intro hmem
          rcases List.mem_cons.mp hmem with h' | h'
          · exact hc h'.symm
          · exact splitChar_no_sep sep cs g0 (by rw [hr]; exact List.mem_cons_self g0 gs) h'
        · exact splitChar_no_sep sep cs g (by rw [hr]; exact List.mem_cons_of_mem g0 h)

theorem goSplit_no_sep (s : String) (sep : Char) (x : String)
    (hx : x ∈ goSplit s sep) : (x.toList.contains sep) = false := by
  unfold goSplit at hx
  rcases List.mem_map.mp hx with ⟨cs, hcs, rfl⟩
  have := splitChar_no_sep sep s.toList cs hcs
  rw [show (String.mk cs).toList = cs from rfl]
  cases he : cs.contains sep
  · rfl
  · exact absurd (List.elem_iff.mp he) this

theorem goSplit_getD_no_sep (s : String) (sep : Char) (i : Nat) :
    (((goSplit s sep).getD i "").toList.contains sep) = false := by
  rw [List.getD_eq_getElem?_getD]
  cases hg : (goSplit s sep)[i]? with
  | none => rfl
  | some x =>
    simp only [Option.getD_some]
    exact goSplit_no_sep s sep x (List.getElem?_mem hg)

theorem appendIncluded_prefix (inc : Inc) (n : Node) :
    ∃ Δ, appendIncluded inc n = inc ++ Δ := by
  unfold appendIncluded
  split
  · exact ⟨[], by simp⟩
  · exact ⟨[(incKey n, n)], rfl⟩

theorem appendIncluded_hasKey (inc : Inc) (n : Node) :
    (keys (appendIncluded inc n)).contains (incKey n) = true := by
  cases hk : hasKey inc (incKey n) with
  | true =>
    simp only [appendIncluded, hk, if_true]
    rw [← hasKey_eq_contains]
    exact hk
  | false =>
    simp only [appendIncluded, hk, Bool.false_eq_true, if_false]
    rw [keys_append]
    rw [contains_iff_mem]
    exact List.mem_append_right _ (by simp [keys])

theorem appendIncluded_IncOK (inc : Inc) (n : Node) (h : IncOK inc)
    (hn : Node.goodB (keys inc) n = true) : IncOK (appendIncluded inc n) := by
  cases hk : hasKey inc (incKey n) with
  | true => simpa only [appendIncluded, hk, if_true] using h
  | false =>
    have hnm : incKey n ∉ keys inc := by
      intro hm
      rw [hasKey_eq_contains, (contains_iff_mem _ _).mpr hm] at hk
      exact Bool.true_eq_false.mp hk
    simp only [appendIncluded, hk, Bool.false_eq_true, if_false]
    constructor
    · rw [keys_append, List.nodup_append]
      refine ⟨h.1, by simp [keys], ?_⟩
      intro a ha hb
      simp only [keys, List.map_cons, List.map_nil, List.mem_singleton] at hb
      exact hnm (hb ▸ ha)
    · intro p hp
      rcases List.mem_append.mp hp with hold | hnew
      · exact ⟨(h.2 p hold).1, goodB_append inc _ p.2 (h.2 p hold).2⟩
      · simp only [List.mem_singleton] at hnew
        subst hnew
        exact ⟨rfl, goodB_append inc _ n hn⟩

theorem appendIncludedList_inv :
    ∀ (ds : NodeList) (inc : Inc), IncOK inc →
      NodeList.allGoodB (keys inc) ds = true →
      (∃ Δ, appendIncludedList inc ds = inc ++ Δ)
      ∧ IncOK (appendIncludedList inc ds)
      ∧ NodeList.allKeysIn (keys (appendIncludedList inc ds)) ds = true
  | .nil, inc, h, _ =>
    ⟨⟨[], by simp [appendIncludedList]⟩, by simpa [appendIncludedList] using h, rfl⟩
  | .cons n r, inc, h, hg => by
    unfold NodeList.allGoodB at hg
    rw [Bool.and_eq_true] at hg
    obtain ⟨Δ1, hΔ1⟩ := appendIncluded_prefix inc n
    have h1 : IncOK (appendIncluded inc n) := appendIncluded_IncOK inc n h hg.1
    have hkey1 : (keys (appendIncluded inc n)).contains (incKey n) = true :=
      appendIncluded_hasKey inc n
    have hmono : ∀ k, (keys inc).contains k = true →
        (keys (appendIncluded inc n)).contains k = true := by
      intro k hk
      rw [hΔ1]
      exact contains_keys_append inc Δ1 k hk
    have hg2 : NodeList.allGoodB (keys (appendIncluded inc n)) r = true :=
      allGoodB_mono _ _ hmono r hg.2
    obtain ⟨⟨Δ2, hΔ2⟩, hI, hK⟩ := appendIncludedList_inv r (appendIncluded inc n) h1 hg2
    have hstep : appendIncludedList inc (NodeList.cons n r)
        = appendIncludedList (appendIncluded inc n) r := rfl
    refine ⟨⟨Δ1 ++ Δ2, ?_⟩, by rw [hstep]; exact hI, ?_⟩
    · rw [hstep, hΔ2, hΔ1, List.append_assoc]
    · rw [hstep]
      unfold NodeList.allKeysIn
      rw [Bool.and_eq_true]
      refine ⟨?_, hK⟩
      rw [hΔ2]
      exact contains_keys_append _ Δ2 _ hkey1

theorem visitFields_nil (node : Node) (er : Option Err) (inc : Inc) (sl : Bool) :
    visitFields .nil node er inc sl
      = (match er with | some e => .error e | none => .ok node, inc) := rfl

theorem visitMany_nil (inc : Inc) (sl : Bool) :
    visitMany .nil inc sl = (.ok .nil, inc) := rfl

theorem visitMany_cons (m : Model) (rest : Models) (inc : Inc) (sl : Bool) :
    visitMany (.cons m rest) inc sl
      = (match visitModelNode m inc sl with
         | (.error e, inc1) => (.error e, inc1)
         | (.ok n, inc1) =>
           match visitMany rest inc1 sl with
           | (.error e, inc2) => (.error e, inc2)
           | (.ok ns, inc2) => (.ok (.cons n ns), inc2)) := by
  rw [visitMany.eq_def]

theorem visitFields_cons (tag : String) (v : FieldVal) (rest : Fields) (node : Node)
    (er : Option Err) (inc : Inc) (sl : Bool) :
    visitFields (.cons tag v rest) node er inc sl =
      if tag = "" then visitFields rest node er inc sl else
      if (goSplit tag ',').length < 1 then (.error .badTag, inc) else
      if ((goSplit tag ',').headD "" = clientIDTag ∧ (goSplit tag ',').length ≠ 1)
          ∨ ((goSplit tag ',').headD "" ≠ clientIDTag ∧ (goSplit tag ',').length < 2) then
        (.error .badTag, inc)
      else if (goSplit tag ',').headD "" = "primary" then
        match v with
        | .prim (.str s) =>
          visitFields rest ((node.withID s).withTy ((goSplit tag ',').getD 1 "")) er inc sl
        | .prim (.int n) =>
          visitFields rest
            ((node.withID (toString n)).withTy ((goSplit tag ',').getD 1 "")) er inc sl
        | .prim (.int64 n) =>
          visitFields rest
            ((node.withID (toString n)).withTy ((goSplit tag ',').getD 1 "")) er inc sl
        | .prim (.uint64 n) =>
          visitFields rest
            ((node.withID (toString n)).withTy ((goSplit tag ',').getD 1 "")) er inc sl
        | _ =>
          visitFields rest (node.withTy ((goSplit tag ',').getD 1 "")) (some .badID) inc sl
      else if (goSplit tag ',').headD "" = clientIDTag then
        visitFields rest (if v.goString ≠ "" then node.withCid v.goString else node) er inc sl
      else if (goSplit tag ',').headD "" = "attr" then
        match v with
        | .timeVal t =>
          if t.isZero then visitFields rest (node.withAttrs (some (node.attrs.getD []))) er inc sl
          else
            visitFields rest
              (node.withAttrs (some (setAttr (node.attrs.getD [])
                ((goSplit tag ',').getD 1 "") (.timeSec t.unix)))) er inc sl
        | .timePtrNil =>
          if (goSplit tag ',').length > 2 && (goSplit tag ',').getD 2 "" == "omitempty" then
            visitFields rest (node.withAttrs (some (node.attrs.getD []))) er inc sl
          else
            visitFields rest
              (node.withAttrs (some (setAttr (node.attrs.getD [])
                ((goSplit tag ',').getD 1 "") .nullv))) er inc sl
        | .timePtrSome t =>
          if t.isZero
              && ((goSplit tag ',').length > 2 && (goSplit tag ',').getD 2 "" == "omitempty") then
            visitFields rest (node.withAttrs (some (node.attrs.getD []))) er inc sl
          else
            visitFields rest
              (node.withAttrs (some (setAttr (node.attrs.getD [])
                ((goSplit tag ',').getD 1 "") (.timeSec t.unix)))) er inc sl
        | .prim p =>
          if ((goSplit tag ',').length > 2 && (goSplit tag ',').getD 2 "" == "omitempty")
              && p.isZeroValue then
            visitFields rest (node.withAttrs (some (node.attrs.getD []))) er inc sl
          else
            visitFields rest
              (node.withAttrs (some (setAttr (node.attrs.getD [])
                ((goSplit tag ',').getD 1 "") (.ofPrim p)))) er inc sl
        | _ =>
          visitFields rest
            (node.withAttrs (some (setAttr (node.attrs.getD [])
              ((goSplit tag ',').getD 1 "") .other))) er inc sl
      else if (goSplit tag ',').headD "" = "relation" then
        match v with
        | .relSlice .nil => visitFields rest node er inc sl
        | .relPtrNil => visitFields rest node er inc sl
        | .relSlice (.cons m0 ms) =>
          match visitMany (.cons m0 ms) inc sl with
          | (.ok ds, inc1) =>
            if sl then
              visitFields rest
                (node.withRels (some ((node.rels.getD .nil).set
                  ((goSplit tag ',').getD 1 "") (.many ds.mapShallow))))
                er (appendIncludedList inc1 ds) sl
            else
              visitFields rest
                (node.withRels (some ((node.rels.getD .nil).set
                  ((goSplit tag ',').getD 1 "") (.many ds))))
                er inc1 sl
          | (.error e, inc1) => (.error e, inc1)
        | .relPtrSome m =>
          match visitModelNode m inc sl with
          | (.ok rel, inc1) =>
            if sl then
              visitFields rest
                (node.withRels (some ((node.rels.getD .nil).set
                  ((goSplit tag ',').getD 1 "") (.one (toShallowNode rel)))))
                er (appendIncluded inc1 rel) sl
            else
              visitFields rest
                (node.withRels (some ((node.rels.getD .nil).set
                  ((goSplit tag ',').getD 1 "") (.one rel))))
                er inc1 sl
          | (.error e, inc1) => (.error e, inc1)
        | _ => visitFields rest node er inc sl
      else (.error .badTag, inc) := by
  rw [visitFields.eq_def]

/-- What a sideloaded visit guarantees: the accumulator only grows by a
suffix, stays well-formed, and an ok root node is good relative to the final
accumulator keys. -/
def VisitOut (inc : Inc) (out : Except Err Node × Inc) : Prop :=
  (∃ Δ, out.2 = inc ++ Δ) ∧ IncOK out.2
    ∧ ∀ n, out.1 = .ok n → Node.goodB (keys out.2) n = true

/-- Same for the relationship-collection loop. -/
def ManyOut (inc : Inc) (out : Except Err NodeList × Inc) : Prop :=
  (∃ Δ, out.2 = inc ++ Δ) ∧ IncOK out.2
    ∧ ∀ ns, out.1 = .ok ns → NodeList.allGoodB (keys out.2) ns = true

theorem visitOut_comp (inc inc1 : Inc) (out : Except Err Node × Inc)
    (hpre : ∃ Δ, inc1 = inc ++ Δ) (hout : VisitOut inc1 out) : VisitOut inc out := by
  obtain ⟨Δ1, h1⟩ := hpre
  obtain ⟨⟨Δ2, h2⟩, hI, hG⟩ := hout
  exact ⟨⟨Δ1 ++ Δ2, by rw [h2, h1, List.append_assoc]⟩, hI, hG⟩

theorem goodB_of_extend (inc inc1 : Inc) (n : Node)
    (hpre : ∃ Δ, inc1 = inc ++ Δ) (h : Node.goodB (keys inc) n = true) :
    Node.goodB (keys inc1) n = true := by
  obtain ⟨Δ, hΔ⟩ := hpre
  rw [hΔ]
  exact goodB_append inc Δ n h

theorem goodB_empty_node (ks : List String) :
    Node.goodB ks (Node.mk "" "" "" none none) = true := rfl

mutual

theorem visitModelNode_inv (m : Model) (inc : Inc) (h : IncOK inc) :
    VisitOut inc (visitModelNode m inc true) :=
  match m with
  | .mk fs =>
    visitFields_inv fs (Node.mk "" "" "" none none) none inc h (goodB_empty_node _)

theorem visitFields_inv (fs : Fields) (node : Node) (er : Option Err) (inc : Inc)
    (h : IncOK inc) (hn : Node.goodB (keys inc) node = true) :
    VisitOut inc (visitFields fs node er inc true) :=
  match fs with
  | .nil => by
    cases er with
    | none =>
      refine ⟨⟨[], by simp [visitFields_nil]⟩, h, ?_⟩
      intro n hok
      cases hok
      exact hn
    | some e =>
      exact ⟨⟨[], by simp [visitFields_nil]⟩, h, fun n hok => by cases hok⟩
  | .cons tag v rest => by
    rw [visitFields_cons]
    by_cases htag : tag = ""
    · rw [if_pos htag]
      exact visitFields_inv rest node er inc h hn
    · rw [if_neg htag]
      by_cases hlen : (goSplit tag ',').length < 1
      · rw [if_pos hlen]
        exact ⟨⟨[], by simp [visitFields_nil]⟩, h, fun n hok => by cases hok⟩
      · rw [if_neg hlen]
        by_cases hguard : ((goSplit tag ',').headD "" = clientIDTag
              ∧ (goSplit tag ',').length ≠ 1)
            ∨ ((goSplit tag ',').headD "" ≠ clientIDTag ∧ (goSplit tag ',').length < 2)
        · rw [if_pos hguard]
          exact ⟨⟨[], by simp [visitFields_nil]⟩, h, fun n hok => by cases hok⟩
        · rw [if_neg hguard]
          by_cases hprim : (goSplit tag ',').headD "" = "primary"
          · rw [if_pos hprim]
            have hty : (((goSplit tag ',').getD 1 "").toList.contains ',') = false :=
              goSplit_getD_no_sep tag ',' 1
            cases v with
            | prim p =>
              cases p with
              | str s =>
                refine visitFields_inv rest _ er inc h ?_
                refine goodB_withTy _ _ _ ?_ hty
                rw [goodB_withID]
                exact hn
              | int n =>
                refine visitFields_inv rest _ er inc h ?_
                refine goodB_withTy _ _ _ ?_ hty
                rw [goodB_withID]
                exact hn
              | int64 n =>
                refine visitFields_inv rest _ er inc h ?_
                refine goodB_withTy _ _ _ ?_ hty
                rw [goodB_withID]
                exact hn
              | uint64 n =>
                refine visitFields_inv rest _ er inc h ?_
                refine goodB_withTy _ _ _ ?_ hty
                rw [goodB_withID]
                exact hn
              | boolv b =>
                refine visitFields_inv rest _ _ inc h ?_
                exact goodB_withTy _ _ _ hn hty
            | timeVal t =>
              refine visitFields_inv rest _ _ inc h ?_
              exact goodB_withTy _ _ _ hn hty
            | timePtrNil =>
              refine visitFields_inv rest _ _ inc h ?_
              exact goodB_withTy _ _ _ hn hty
            | timePtrSome t =>
              refine visitFields_inv rest _ _ inc h ?_
              exact goodB_withTy _ _ _ hn hty
            | relSlice ms =>
              refine visitFields_inv rest _ _ inc h ?_
              exact goodB_withTy _ _ _ hn hty
            | relPtrNil =>
              refine visitFields_inv rest _ _ inc h ?_
              exact goodB_withTy _ _ _ hn hty
            | relPtrSome m =>
              refine visitFields_inv rest _ _ inc h ?_
              exact goodB_withTy _ _ _ hn hty
          · rw [if_neg hprim]
            by_cases hcid : (goSplit tag ',').headD "" = clientIDTag
            · rw [if_pos hcid]
              by_cases hne : v.goString ≠ ""
              · rw [if_pos hne]
                refine visitFields_inv rest _ er inc h ?_
                rw [goodB_withCid]
                exact hn
              · rw [if_neg hne]
                exact visitFields_inv rest node er inc h hn
            · rw [if_neg hcid]
              by_cases hattr : (goSplit tag ',').headD "" = "attr"
              · rw [if_pos hattr]
                cases v with
                | timeVal t =>
                  simp only []
                  by_cases hz : t.isZero = true
                  · rw [if_pos hz]
                    refine visitFields_inv rest _ er inc h ?_
                    rw [goodB_withAttrs]
                    exact hn
                  · rw [if_neg hz]
                    refine visitFields_inv rest _ er inc h ?_
                    rw [goodB_withAttrs]
                    exact hn
                | timePtrNil =>
                  simp only []
                  split
                  · refine visitFields_inv rest _ er inc h ?_
                    rw [goodB_withAttrs]
                    exact hn
                  · refine visitFields_inv rest _ er inc h ?_
                    rw [goodB_withAttrs]
                    exact hn
                | timePtrSome t =>
                  simp only []
                  split
                  · refine visitFields_inv rest _ er inc h ?_
                    rw [goodB_withAttrs]
                    exact hn
                  · refine visitFields_inv rest _ er inc h ?_
                    rw [goodB_withAttrs]
                    exact hn
                | prim p =>
                  simp only []
                  split
                  · refine visitFields_inv rest _ er inc h ?_
                    rw [goodB_withAttrs]
                    exact hn
                  · refine visitFields_inv rest _ er inc h ?_
                    rw [goodB_withAttrs]
                    exact hn
                | relSlice ms =>
                  refine visitFields_inv rest _ er inc h ?_
                  rw [goodB_withAttrs]
                  exact hn
                | relPtrNil =>
                  refine visitFields_inv rest _ er inc h ?_
                  rw [goodB_withAttrs]
                  exact hn
                | relPtrSome m =>
                  refine visitFields_inv rest _ er inc h ?_
                  rw [goodB_withAttrs]
                  exact hn
              · rw [if_neg hattr]
                by_cases hrel : (goSplit tag ',').headD "" = "relation"
                · rw [if_pos hrel]
                  cases v with
                  | prim p => exact visitFields_inv rest node er inc h hn
                  | timeVal t => exact visitFields_inv rest node er inc h hn
                  | timePtrNil => exact visitFields_inv rest node er inc h hn
                  | timePtrSome t => exact visitFields_inv rest node er inc h hn
                  | relPtrNil => exact visitFields_inv rest node er inc h hn
                  | relSlice ms =>
                    cases ms with
                    | nil => exact visitFields_inv rest node er inc h hn
                    | cons m0 ms' =>
                      simp only []
                      have hM := visitMany_inv (.cons m0 ms') inc h
                      rcases hout : visitMany (.cons m0 ms') inc true with ⟨res, inc1⟩
                      rw [hout] at hM
                      obtain ⟨hpre1, hI1, hG1⟩ := hM
                      simp only [] at hpre1 hI1 hG1
                      cases res with
                      | error e =>
                        exact ⟨hpre1, hI1, fun n hok => by cases hok⟩
                      | ok ds =>
                        simp only []
                        rw [if_pos trivial]
                        have hds : NodeList.allGoodB (keys inc1) ds = true := hG1 ds rfl
                        obtain ⟨hpre2, hI2, hK2⟩ := appendIncludedList_inv ds inc1 hI1 hds
                        refine visitOut_comp inc (appendIncludedList inc1 ds)
                          _ ?_ (visitFields_inv rest _ er _ hI2 ?_)
                        · obtain ⟨Δ1, h1⟩ := hpre1
                          obtain ⟨Δ2, h2⟩ := hpre2
                          exact ⟨Δ1 ++ Δ2, by rw [h2, h1, List.append_assoc]⟩
                        · refine goodB_withRels _ _ _ ?_ ?_
                          · exact tyFree_of_goodB _ _
                              (goodB_of_extend inc (appendIncludedList inc1 ds) node
                                (by
                                  obtain ⟨Δ1, h1⟩ := hpre1
                                  obtain ⟨Δ2, h2⟩ := hpre2
                                  exact ⟨Δ1 ++ Δ2, by rw [h2, h1, List.append_assoc]⟩) hn)
                          · refine allGood_set _ _ _ ?_ _ ?_
                            · exact allTargets_mapShallow _ ds
                                (allGoodB_mono _ _ (fun k hk => by
                                  obtain ⟨Δ2, h2⟩ := hpre2
                                  rw [h2]
                                  exact contains_keys_append inc1 Δ2 k hk) ds hds)
                                hK2
                            · exact relsGetD_allGood _ _
                                (goodB_of_extend inc (appendIncludedList inc1 ds) node
                                  (by
                                    obtain ⟨Δ1, h1⟩ := hpre1
                                    obtain ⟨Δ2, h2⟩ := hpre2
                                    exact ⟨Δ1 ++ Δ2, by rw [h2, h1, List.append_assoc]⟩) hn)
                  | relPtrSome m =>
                    simp only []
                    have hV := visitModelNode_inv m inc h
                    rcases hout : visitModelNode m inc true with ⟨res, inc1⟩
                    rw [hout] at hV
                    obtain ⟨hpre1, hI1, hG1⟩ := hV
                    simp only [] at hpre1 hI1 hG1
                    cases res with
                    | error e =>
                      exact ⟨hpre1, hI1, fun n hok => by cases hok⟩
                    | ok rel =>
                      simp only []
                      rw [if_pos trivial]
                      have hrelg : Node.goodB (keys inc1) rel = true := hG1 rel rfl
                      have hI2 : IncOK (appendIncluded inc1 rel) :=
                        appendIncluded_IncOK inc1 rel hI1 hrelg
                      have hpre2 : ∃ Δ, appendIncluded inc1 rel = inc1 ++ Δ :=
                        appendIncluded_prefix inc1 rel
                      have hpre12 : ∃ Δ, appendIncluded inc1 rel = inc ++ Δ := by
                        obtain ⟨Δ1, h1⟩ := hpre1
                        obtain ⟨Δ2, h2⟩ := hpre2
                        exact ⟨Δ1 ++ Δ2, by rw [h2, h1, List.append_assoc]⟩
                      refine visitOut_comp inc (appendIncluded inc1 rel)
                        _ hpre12 (visitFields_inv rest _ er _ hI2 ?_)
                      refine goodB_withRels _ _ _ ?_ ?_
                      · exact tyFree_of_goodB _ _ (goodB_of_extend inc _ node hpre12 hn)
                      · refine allGood_set _ _ _ ?_ _ ?_
                        · show targetOK _ _ = true
                          unfold targetOK
                          simp only [Bool.and_eq_true]
                          rw [incKey_toShallowNode, isShallow_toShallowNode,
                            tyFree_toShallowNode]
                          exact ⟨⟨rfl, appendIncluded_hasKey inc1 rel⟩,
                            tyFree_of_goodB _ _ hrelg⟩
                        · exact relsGetD_allGood _ _ (goodB_of_extend inc _ node hpre12 hn)
                · rw [if_neg hrel]
                  exact ⟨⟨[], by simp [visitFields_nil]⟩, h, fun n hok => by cases hok⟩

theorem visitMany_inv (ms : Models) (inc : Inc) (h : IncOK inc) :
    ManyOut inc (visitMany ms inc true) :=
  match ms with
  | .nil => ⟨⟨[], by simp [visitMany_nil]⟩, h, fun ns hok => by rw [visitMany_nil] at hok; cases hok; rfl⟩
  | .cons m rest => by
    rw [visitMany_cons]
    have hV := visitModelNode_inv m inc h
    rcases hout : visitModelNode m inc true with ⟨res, inc1⟩
    rw [hout] at hV
    obtain ⟨hpre1, hI1, hG1⟩ := hV
    simp only [] at hpre1 hI1 hG1
    cases res with
    | error e =>
      simp only []
      exact ⟨hpre1, hI1, fun ns hok => by cases hok⟩
    | ok n =>
      simp only []
      have hR := visitMany_inv rest inc1 hI1
      rcases hout2 : visitMany rest inc1 true with ⟨res2, inc2⟩
      rw [hout2] at hR
      obtain ⟨hpre2, hI2, hG2⟩ := hR
      simp only [] at hpre2 hI2 hG2
      have hpre12 : ∃ Δ, inc2 = inc ++ Δ := by
        obtain ⟨Δ1, h1⟩ := hpre1
        obtain ⟨Δ2, h2⟩ := hpre2
        exact ⟨Δ1 ++ Δ2, by rw [h2, h1, List.append_assoc]⟩
      cases res2 with
      | error e =>
        simp only []
        exact ⟨hpre12, hI2, fun ns hok => by cases hok⟩
      | ok ns =>
        simp only []
        refine ⟨hpre12, hI2, ?_⟩
        intro ns' hok
        cases hok
        unfold NodeList.allGoodB
        rw [Bool.and_eq_true]
        refine ⟨?_, hG2 ns rfl⟩
        exact goodB_of_extend inc1 inc2 n hpre2 (hG1 n rfl)

end

/-! ### From the traversal invariant to the payload-level dedup claim -/

theorem keys_eq_map_incKey (inc : Inc)
    (hkeyed : ∀ p ∈ inc, p.1 = incKey p.2) :
    keys inc = (nodeMapValues inc).map incKey := by
  unfold keys nodeMapValues
  rw [List.map_map]
  exact List.map_congr_left hkeyed

theorem append_comma_inj :
    ∀ (a : List Char) (x : List Char) (b : List Char) (y : List Char),
      ',' ∉ a → ',' ∉ b → a ++ ',' :: x = b ++ ',' :: y → a = b ∧ x = y
  | [], x, [], y, _, _, h => by simp at h; simp [h]
  | [], x, c :: b, y, _, hb, h => by
    simp at h
    exact absurd (h.1 ▸ List.mem_cons_self c b) hb
  | c :: a, x, [], y, ha, _, h => by
    simp at h
    exact absurd (h.1 ▸ List.mem_cons_self c a) ha
  | c :: a, x, d :: b, y, ha, hb, h => by
    simp only [List.cons_append, List.cons.injEq] at h
    have := append_comma_inj a x b y
      (fun hm => ha (List.mem_cons_of_mem c hm))
      (fun hm => hb (List.mem_cons_of_mem d hm)) h.2
    exact ⟨by rw [h.1, this.1], this.2⟩

theorem contains_iff_mem_char (l : List Char) (k : Char) :
    l.contains k = true ↔ k ∈ l := List.elem_iff

theorem incKey_inj (n s : Node) (hn : n.tyFree = true) (hs : s.tyFree = true) :
    incKey n = incKey s ↔ (n.ty = s.ty ∧ n.id = s.id) := by
  constructor
  · intro h
    unfold incKey at h
    have hd0 := congrArg String.toList h
    have e1 : (n.ty ++ "," ++ n.id).toList = n.ty.toList ++ [','] ++ n.id.toList := rfl
    have e2 : (s.ty ++ "," ++ s.id).toList = s.ty.toList ++ [','] ++ s.id.toList := rfl
    rw [e1, e2] at hd0
    have hd : n.ty.toList ++ ',' :: n.id.toList = s.ty.toList ++ ',' :: s.id.toList := by
      simpa [List.append_assoc] using hd0
    have hnm : ',' ∉ n.ty.toList := by
      unfold Node.tyFree at hn
      rw [Bool.not_eq_true'] at hn
      intro hm
      rw [(contains_iff_mem_char n.ty.toList ',').mpr hm] at hn
      exact Bool.true_eq_false.mp hn
    have hsm : ',' ∉ s.ty.toList := by
      unfold Node.tyFree at hs
      rw [Bool.not_eq_true'] at hs
      intro hm
      rw [(contains_iff_mem_char s.ty.toList ',').mpr hm] at hs
      exact Bool.true_eq_false.mp hs
    have := append_comma_inj n.ty.toList n.id.toList s.ty.toList s.id.toList hnm hsm hd
    exact ⟨String.ext this.1, String.ext this.2⟩
  · intro hp
    unfold incKey
    rw [hp.1, hp.2]

theorem count_key_eq_one :
    ∀ (l : List Node) (c : String), (l.map incKey).Nodup →
      (∃ d ∈ l, incKey d = c) →
      (l.filter (fun d => incKey d == c)).length = 1
  | [], c, _, hex => by simp at hex
  | a :: l, c, hnd, hex => by
    rw [List.map_cons, List.nodup_cons] at hnd
    by_cases hc : incKey a = c
    · have hnone : ∀ d ∈ l, ¬(incKey d = c) := by
        intro d hd hdc
        exact hnd.1 (by rw [hc, ← hdc]; exact List.mem_map_of_mem incKey hd)
      rw [List.filter_cons_of_pos (by simp [hc])]
      have hz : l.filter (fun d => incKey d == c) = [] := by
        rw [List.filter_eq_nil_iff]
        intro d hd
        simp only [beq_iff_eq]
        exact fun hh => hnone d hd hh
      rw [hz]
      rfl
    · rw [List.filter_cons_of_neg (by simp [hc])]
      refine count_key_eq_one l c hnd.2 ?_
      rcases hex with ⟨d, hd, hdc⟩
      rcases List.mem_cons.mp hd with rfl | hd2
      · exact absurd hdc hc
      · exact ⟨d, hd2, hdc⟩

theorem allGood_toList_mem (ks : List String) :
    ∀ (rs : Rels), rs.allGood ks = true →
      ∀ pr ∈ rs.toList, RelVal.goodB ks pr.2 = true
  | .nil, _, pr, hpr => by simp [Rels.toList] at hpr
  | .cons k v r, hg, pr, hpr => by
    unfold Rels.allGood at hg
    rw [Bool.and_eq_true] at hg
    unfold Rels.toList at hpr
    rcases List.mem_cons.mp hpr with rfl | hpr'
    · exact hg.1
    · exact allGood_toList_mem ks r hg.2 pr hpr'

theorem allTargets_toList_mem (ks : List String) :
    ∀ (ds : NodeList), ds.allTargets ks = true →
      ∀ d ∈ ds.toList, targetOK ks d = true
  | .nil, _, d, hd => by simp [NodeList.toList] at hd
  | .cons n r, hg, d, hd => by
    unfold NodeList.allTargets at hg
    rw [Bool.and_eq_true] at hg
    unfold NodeList.toList at hd
    rcases List.mem_cons.mp hd with rfl | hd'
    · exact hg.1
    · exact allTargets_toList_mem ks r hg.2 d hd'

theorem goodB_targets (ks : List String) (n : Node)
    (h : Node.goodB ks n = true) :
    ∀ pr ∈ n.relsList, ∀ s ∈ pr.2.targets, targetOK ks s = true := by
  intro pr hpr s hs
  have hrv : RelVal.goodB ks pr.2 = true := by
    unfold Node.relsList at hpr
    cases hr : n.rels with
    | none => rw [hr] at hpr; simp at hpr
    | some rs =>
      rw [hr] at hpr
      refine allGood_toList_mem ks rs ?_ pr hpr
      cases n with
      | mk t i c a r =>
        unfold Node.goodB at h
        rw [Bool.and_eq_true] at h
        have := h.2
        simp only [Node.rels] at hr
        rw [hr] at this
        exact this
  cases hv : pr.2 with
  | one d =>
    rw [hv] at hrv
    unfold RelVal.targets at hs
    rw [hv] at hs
    simp at hs
    subst hs
    exact hrv
  | many ds =>
    rw [hv] at hrv
    unfold RelVal.targets at hs
    rw [hv] at hs
    exact allTargets_toList_mem ks ds hrv s hs

theorem payload_props (incf : Inc) (roots : List Node)
    (hI : IncOK incf)
    (hroots : ∀ r ∈ roots, Node.goodB (keys incf) r = true) :
    ((nodeMapValues incf).map incKey).Nodup
    ∧ ∀ parent ∈ roots ++ nodeMapValues incf, ∀ pr ∈ parent.relsList,
        ∀ s ∈ pr.2.targets,
          s.isShallow = true
          ∧ ((nodeMapValues incf).filter
              (fun d => d.ty == s.ty && d.id == s.id)).length = 1 := by
  have hkeys : keys incf = (nodeMapValues incf).map incKey :=
    keys_eq_map_incKey incf (fun p hp => (hI.2 p hp).1)
  constructor
  · rw [← hkeys]
    exact hI.1
  · intro parent hpar pr hpr s hs
    have hpg : Node.goodB (keys incf) parent = true := by
      rcases List.mem_append.mp hpar with hroot | hincl
      · exact hroots parent hroot
      · unfold nodeMapValues at hincl
        rcases List.mem_map.mp hincl with ⟨pp, hpp, rfl⟩
        exact (hI.2 pp hpp).2
    have htgt := goodB_targets (keys incf) parent hpg pr hpr s hs
    unfold targetOK at htgt
    simp only [Bool.and_eq_true] at htgt
    refine ⟨htgt.1.1, ?_⟩
    have hsty : s.tyFree = true := htgt.2
    have hmem : incKey s ∈ (nodeMapValues incf).map incKey := by
      rw [← hkeys]
      exact (contains_iff_mem _ _).mp htgt.1.2
    rcases List.mem_map.mp hmem with ⟨d0, hd0, hd0k⟩
    have hcongr : (nodeMapValues incf).filter (fun d => d.ty == s.ty && d.id == s.id)
        = (nodeMapValues incf).filter (fun d => incKey d == incKey s) := by
      refine List.filter_congr ?_
      intro d hd
      have hdty : d.tyFree = true := by
        unfold nodeMapValues at hd
        rcases List.mem_map.mp hd with ⟨pp, hpp, rfl⟩
        exact tyFree_of_goodB _ _ (hI.2 pp hpp).2
      cases hb : (d.ty == s.ty && d.id == s.id) with
      | true =>
        simp only [Bool.and_eq_true, beq_iff_eq] at hb
        have hke : incKey d = incKey s := (incKey_inj d s hdty hsty).mpr hb
        simp [hke]
      | false =>
        cases hb2 : (incKey d == incKey s) with
        | false => rfl
        | true =>
          rw [beq_iff_eq] at hb2
          have hde := (incKey_inj d s hdty hsty).mp hb2
          simp [hde.1, hde.2] at hb
    rw [hcongr]
    refine count_key_eq_one _ (incKey s) ?_ ⟨d0, hd0, hd0k⟩
    rw [← hkeys]
    exact hI.1

theorem IncOK_nil : IncOK [] := ⟨List.nodup_nil, fun p hp => absurd hp (List.not_mem_nil p)⟩

theorem marshalManyLoop_nil (data : Option (List Node)) (inc : Inc) :
    marshalManyLoop [] data inc = .ok (data, inc) := rfl

theorem marshalManyLoop_cons (m : Model) (rest : List Model)
    (data : Option (List Node)) (inc : Inc) :
    marshalManyLoop (m :: rest) data inc
      = (match visitModelNode m inc true with
         | (.error e, _) => .error e
         | (.ok n, inc1) => marshalManyLoop rest (some (data.getD [] ++ [n])) inc1) := by
  rw [marshalManyLoop.eq_def]

theorem marshalManyLoop_inv :
    ∀ (ms : List Model) (data : Option (List Node)) (inc : Inc), IncOK inc →
      (∀ n ∈ data.getD [], Node.goodB (keys inc) n = true) →
      ∀ out, marshalManyLoop ms data inc = .ok out →
        IncOK out.2 ∧ ∀ n ∈ (out.1).getD [], Node.goodB (keys out.2) n = true
  | [], data, inc, h, hd, out, hout => by
    rw [marshalManyLoop_nil] at hout
    cases hout
    exact ⟨h, hd⟩
  | m :: rest, data, inc, h, hd, out, hout => by
    rw [marshalManyLoop_cons] at hout
    have hV := visitModelNode_inv m inc h
    rcases hres : visitModelNode m inc true with ⟨res, inc1⟩
    rw [hres] at hV hout
    obtain ⟨hpre1, hI1, hG1⟩ := hV
    simp only [] at hpre1 hI1 hG1
    cases res with
    | error e => cases hout
    | ok n =>
      simp only [] at hout
      refine marshalManyLoop_inv rest (some (data.getD [] ++ [n])) inc1 hI1 ?_ out hout
      intro x hx
      simp only [Option.getD_some] at hx
      rcases List.mem_append.mp hx with hold | hnew
      · exact goodB_of_extend inc inc1 x hpre1 (hd x hold)
      · rw [List.mem_singleton.mp hnew]
        exact hG1 n rfl

/-! ## Claim C1 — sideload dedup and shallow linkage -/

/-- C1: for every successful sideloaded marshal (`MarshalOne` here;
`MarshalMany` likewise; the payload-writing entry points delegate to these),
dedup holds at the level the code implements it: (1) the included list's
accumulator keys `type ++ "," ++ id` are pairwise distinct — and since
resource types come from tag components, which cannot contain the comma
separator, this is exactly pairwise-distinct `(type, id)` pairs; (2) every
relationship linkage of every emitted node (root or included) is a shallow
node — only type and id, no clientID, nil attributes, nil relationships —
and the included list contains exactly one node with that linkage's
`(type, id)`; (3) a node whose key is already present is not re-inserted,
so of duplicate `(type, id)` resources the first-visited instance is the
one retained. -/
theorem C1_dedup_shallow (m : Model) (ms : List Model) (p : OnePayload)
    (q : ManyPayload) (h1 : MarshalOne m = Except.ok p)
    (h2 : MarshalMany ms = Except.ok q) :
    ((p.included.map incKey).Nodup
      ∧ ∀ parent ∈ p.data :: p.included, ∀ pr ∈ parent.relsList,
          ∀ s ∈ pr.2.targets,
            s.isShallow = true
            ∧ (p.included.filter (fun d => d.ty == s.ty && d.id == s.id)).length = 1)
    ∧ ((q.included.map incKey).Nodup
      ∧ ∀ parent ∈ q.data.getD [] ++ q.included, ∀ pr ∈ parent.relsList,
          ∀ s ∈ pr.2.targets,
            s.isShallow = true
            ∧ (q.included.filter (fun d => d.ty == s.ty && d.id == s.id)).length = 1)
    ∧ (∀ inc n, hasKey inc (incKey n) = true → appendIncluded inc n = inc) := by
  refine ⟨?_, ?_, ?_⟩
  · -- MarshalOne
    unfold MarshalOne at h1
    have hV := visitModelNode_inv m [] IncOK_nil
    rcases hres : visitModelNode m [] true with ⟨res, incf⟩
    rw [hres] at hV h1
    obtain ⟨hpre1, hI1, hG1⟩ := hV
    simp only [] at hpre1 hI1 hG1
    cases res with
    | error e => cases h1
    | ok n =>
      simp only [] at h1
      cases h1
      have hp := payload_props incf [n] hI1 (by
        intro r hr
        rw [List.mem_singleton.mp hr]
        exact hG1 n rfl)
      exact ⟨hp.1, by simpa using hp.2⟩
  · -- MarshalMany
    unfold MarshalMany marshalMany at h2
    have hL := marshalManyLoop_inv ms none [] IncOK_nil
      (by intro n hn; simp at hn)
    rcases hres : marshalManyLoop ms none [] with e | out
    · rw [hres] at h2
      cases h2
    · rw [hres] at h2
      obtain ⟨hI, hroots⟩ := hL out hres
      rcases out with ⟨data, incf⟩
      simp only [] at h2 hI hroots
      have hp := payload_props incf ((if ms.length = 0 then some [] else data).getD [])
        hI (by
          intro r hr
          by_cases hz : ms.length = 0
          · rw [if_pos hz] at hr
            simp at hr
          · rw [if_neg hz] at hr
            exact hroots r hr)
      cases h2
      exact ⟨hp.1, hp.2⟩
  · intro inc n hk
    unfold appendIncluded
    simp [hk]

/-- Two distinct relationship branches of one root referencing the same
`(type, id)` resource (`animals/7`), with different attribute payloads so the
retained instance is observable. -/
def dedupScenarioRoot : Model :=
  .mk (.cons "primary,people" (.prim (.str "42"))
    (.cons "relation,pet1"
      (.relPtrSome (.mk (.cons "primary,animals" (.prim (.str "7"))
        (.cons "attr,name" (.prim (.str "Rex")) .nil))))
    (.cons "relation,pet2"
      (.relPtrSome (.mk (.cons "primary,animals" (.prim (.str "7"))
        (.cons "attr,name" (.prim (.str "Cat")) .nil))))
    .nil)))

/-- What marshaling the scenario yields: both linkages shallow `animals/7`,
and `included` holding exactly the first-visited instance (`Rex`). -/
def dedupScenarioPayload : OnePayload :=
  ⟨Node.mk "people" "42" "" none
      (some (Rels.cons "pet1" (RelVal.one (Node.mk "animals" "7" "" none none))
        (Rels.cons "pet2" (RelVal.one (Node.mk "animals" "7" "" none none)) Rels.nil))),
    [Node.mk "animals" "7" "" (some [("name", AttrVal.ofPrim (Prim.str "Rex"))]) none]⟩

/-- C1 witness: the claim applied to the concrete two-branch
duplicate scenario (and the empty `MarshalMany`). -/
theorem C1_dedup_shallow_witness :
    MarshalOne dedupScenarioRoot = Except.ok dedupScenarioPayload
    ∧ MarshalMany ([] : List Model) = Except.ok ⟨some [], [], none⟩
    ∧ (((dedupScenarioPayload.included.map incKey).Nodup
        ∧ ∀ parent ∈ dedupScenarioPayload.data :: dedupScenarioPayload.included,
            ∀ pr ∈ parent.relsList, ∀ s ∈ pr.2.targets,
              s.isShallow = true
              ∧ (dedupScenarioPayload.included.filter
                  (fun d => d.ty == s.ty && d.id == s.id)).length = 1)
      ∧ (((⟨some [], [], none⟩ : ManyPayload).included.map incKey).Nodup
        ∧ ∀ parent ∈ (⟨some [], [], none⟩ : ManyPayload).data.getD []
              ++ (⟨some [], [], none⟩ : ManyPayload).included,
            ∀ pr ∈ parent.relsList, ∀ s ∈ pr.2.targets,
              s.isShallow = true
              ∧ ((⟨some [], [], none⟩ : ManyPayload).included.filter
                  (fun d => d.ty == s.ty && d.id == s.id)).length = 1)
      ∧ (∀ inc n, hasKey inc (incKey n) = true → appendIncluded inc n = inc)) :=
  ⟨rfl, rfl,
    C1_dedup_shallow dedupScenarioRoot [] dedupScenarioPayload ⟨some [], [], none⟩ rfl rfl⟩

/-! ## Claim C3 — the primary-key type error does not abort the visit -/

/-- C3: the `break` in the primary-key type switch's default case
(response.go:365-368) exits only the switch, not the field loop, so an
unsupported primary-key runtime type does not abort the visit. Evaluating
the embedded code: (1) an object whose first field is a bool-valued
`primary` field and whose second is a sideloaded relationship still visits
the relationship and inserts the related node into the shared included
accumulator before returning the error; (2) if a later field has a
malformed tag, the visit returns that later error (ErrBadJSONAPIStructTag),
not the first one (ErrBadJSONAPIID). -/
theorem C3_switch_break_eval :
    visitModelNode (.mk (.cons "primary,people" (.prim (.boolv true))
        (.cons "relation,pet"
          (.relPtrSome (.mk (.cons "primary,animals" (.prim (.str "7")) .nil))) .nil)))
        [] true
      = (Except.error Err.badID, [("animals,7", Node.mk "animals" "7" "" none none)])
    ∧ visitModelNode (.mk (.cons "primary,people" (.prim (.boolv true))
        (.cons "badtag" (.prim (.str "x")) .nil))) [] true
      = (Except.error Err.badTag, []) :=
  ⟨rfl, rfl⟩

/-! ## Claim C4 — which descriptors fail the component-count check -/

/-- C4 counterexample: a `primary`-role descriptor with three components is
accepted (the extra component is ignored and the type is the second
component), where the claim demands a BadFieldSpec failure. -/
theorem C4_counterexample :
    MarshalOne (.mk (.cons "primary,people,x" (.prim (.str "5")) .nil))
      = Except.ok ⟨Node.mk "people" "5" "" none none, []⟩ := rfl

/-- Splitting never yields an empty component list (so the code's
`len(args) < 1` check is dead and "zero components" cannot occur). -/
theorem splitChar_ne_nil (sep : Char) : ∀ cs, splitChar sep cs ≠ []
  | [], h => by simp [splitChar] at h
  | c :: cs, h => by
    unfold splitChar at h
    by_cases hc : c = sep
    · rw [if_pos hc] at h
      simp at h
    · rw [if_neg hc] at h
      rcases hr : splitChar sep cs with _ | ⟨g, gs⟩
      · rw [hr] at h
        simp at h
      · rw [hr] at h
        simp at h

theorem goSplit_length_pos (s : String) (sep : Char) : 1 ≤ (goSplit s sep).length := by
  unfold goSplit
  rw [List.length_map]
  rcases hr : splitChar sep s.toList with _ | ⟨g, gs⟩
  · exact absurd hr (splitChar_ne_nil sep s.toList)
  · simp

/-- C4 (amended): the component-count check of visitModelNode
(response.go:338-351) fails with ErrBadJSONAPIStructTag exactly when the
descriptor's first component is the client-id marker with more than one
component, or is any other role with fewer than two components. Zero
components cannot occur (`strings.Split` always returns at least one).
A `primary` descriptor with more than two components passes the check
(shown by the counterexample). Stated behaviorally for each role over a
single-field object (with a field value that triggers no other error
path): the visit fails with ErrBadJSONAPIStructTag iff the count condition
holds. -/
theorem C4_tag_guard_amended (tag : String) :
    1 ≤ (goSplit tag ',').length
    ∧ (∀ s node inc sl, (goSplit tag ',').headD "" = "primary" →
        ((visitFields (.cons tag (.prim (.str s)) .nil) node none inc sl).1
            = Except.error Err.badTag
          ↔ (goSplit tag ',').length < 2))
    ∧ (∀ v node inc sl, (goSplit tag ',').headD "" = clientIDTag →
        ((visitFields (.cons tag v .nil) node none inc sl).1
            = Except.error Err.badTag
          ↔ (goSplit tag ',').length ≠ 1))
    ∧ (∀ p node inc sl, (goSplit tag ',').headD "" = "attr" →
        ((visitFields (.cons tag (.prim p) .nil) node none inc sl).1
            = Except.error Err.badTag
          ↔ (goSplit tag ',').length < 2))
    ∧ (∀ node inc sl, (goSplit tag ',').headD "" = "relation" →
        ((visitFields (.cons tag FieldVal.relPtrNil .nil) node none inc sl).1
            = Except.error Err.badTag
          ↔ (goSplit tag ',').length < 2)) := by
  have hne : ∀ r : String, (goSplit tag ',').headD "" = r → r ≠ "" → ¬ tag = "" := by
    intro r hr hrne htag
    rw [htag] at hr
    exact hrne (by rw [← hr]; rfl)
  have hpos : 1 ≤ (goSplit tag ',').length := goSplit_length_pos tag ','
  refine ⟨hpos, ?_, ?_, ?_, ?_⟩
  · intro s node inc sl hhead
    rw [visitFields_cons, if_neg (hne "primary" hhead (by decide))]
    rw [if_neg (by omega)]
    by_cases hlen : (goSplit tag ',').length < 2
    · rw [if_pos (by
        right
        exact ⟨by rw [hhead]; decide, hlen⟩)]
      simp [hlen]
    · rw [if_neg (by
        intro hc
        rcases hc with ⟨h1, _⟩ | ⟨_, h2⟩
        · rw [hhead] at h1; exact absurd h1 (by decide)
        · exact hlen h2)]
      rw [if_pos hhead]
      simp only []
      rw [visitFields_nil]
      simp [hlen]
  · intro v node inc sl hhead
    rw [visitFields_cons, if_neg (hne clientIDTag hhead (by decide))]
    rw [if_neg (by omega)]
    by_cases hlen : (goSplit tag ',').length ≠ 1
    · rw [if_pos (Or.inl ⟨hhead, hlen⟩)]
      simp [hlen]
    · rw [if_neg (by
        intro hc
        rcases hc with ⟨_, h1⟩ | ⟨h1, _⟩
        · exact hlen h1
        · exact h1 hhead)]
      rw [if_neg (by rw [hhead]; decide), if_pos hhead]
      split <;> (rw [visitFields_nil]; simp [hlen])
  · intro p node inc sl hhead
    rw [visitFields_cons, if_neg (hne "attr" hhead (by decide))]
    rw [if_neg (by omega)]
    by_cases hlen : (goSplit tag ',').length < 2
    · rw [if_pos (by
        right
        exact ⟨by rw [hhead]; decide, hlen⟩)]
      simp [hlen]
    · rw [if_neg (by
        intro hc
        rcases hc with ⟨h1, _⟩ | ⟨_, h2⟩
        · rw [hhead] at h1; exact absurd h1 (by decide)
        · exact hlen h2)]
      rw [if_neg (by rw [hhead]; decide), if_neg (by rw [hhead]; decide), if_pos hhead]
      simp only []
      split <;> (rw [visitFields_nil]; simp [hlen])
  · intro node inc sl hhead
    rw [visitFields_cons, if_neg (hne "relation" hhead (by decide))]
    rw [if_neg (by omega)]
    by_cases hlen : (goSplit tag ',').length < 2
    · rw [if_pos (by
        right
        exact ⟨by rw [hhead]; decide, hlen⟩)]
      simp [hlen]
    · rw [if_neg (by
        intro hc
        rcases hc with ⟨h1, _⟩ | ⟨_, h2⟩
        · rw [hhead] at h1; exact absurd h1 (by decide)
        · exact hlen h2)]
      rw [if_neg (by rw [hhead]; decide), if_neg (by rw [hhead]; decide),
        if_neg (by rw [hhead]; decide), if_pos hhead]
      simp only []
      rw [visitFields_nil]
      simp [hlen]

/-- C4 witness: the amended statement at concrete descriptors of each role:
`"primary,people"` (passes), `"client-id"` (passes), `"attr,x"` (passes) and
`"relation"` (one component, fails). -/
theorem C4_tag_guard_witness :
    ((goSplit "primary,people" ',').headD "" = "primary"
      ∧ ((visitFields (.cons "primary,people" (.prim (.str "5")) .nil)
            (.mk "" "" "" none none) none [] true).1 = Except.error Err.badTag
          ↔ (goSplit "primary,people" ',').length < 2))
    ∧ ((goSplit "relation" ',').headD "" = "relation"
      ∧ ((visitFields (.cons "relation" FieldVal.relPtrNil .nil)
            (.mk "" "" "" none none) none [] true).1 = Except.error Err.badTag
          ↔ (goSplit "relation" ',').length < 2)) :=
  ⟨⟨by decide,
      (C4_tag_guard_amended "primary,people").2.1 "5" (.mk "" "" "" none none) [] true
        (by decide)⟩,
    ⟨by decide,
      (C4_tag_guard_amended "relation").2.2.2.2 (.mk "" "" "" none none) [] true
        (by decide)⟩⟩

/-! ## Claim C6 — empty collection marshals to an explicit empty list -/

/-- C6: a "many" marshal of a zero-length collection succeeds (with no meta)
and its `data` is the explicit empty list (`some []`, Go's `make([]*Node,
0)`), never the nil slice (`none`, JSON null) nor absent; and whenever
`marshalMany` of an empty collection succeeds with any meta, the payload's
`data` is likewise the explicit empty list. -/
theorem C6_empty_many (meta : Option Fields) (q : ManyPayload)
    (h : marshalMany [] meta = Except.ok q) :
    MarshalMany ([] : List Model) = Except.ok ⟨some [], [], none⟩
      ∧ q.data = some [] := by
  refine ⟨rfl, ?_⟩
  unfold marshalMany at h
  rw [marshalManyLoop_nil] at h
  simp only [] at h
  cases meta with
  | none =>
    simp only [] at h
    cases h
    rfl
  | some mfs =>
    simp only [] at h
    rcases hm : visitMetaNode mfs [] with e | mnode
    · rw [hm] at h
      cases h
    · rw [hm] at h
      simp only [] at h
      cases h
      rfl

/-- C6 witness: the empty collection with no meta. -/
theorem C6_empty_many_witness :
    marshalMany ([] : List Model) none = Except.ok ⟨some [], [], none⟩
    ∧ (MarshalMany ([] : List Model) = Except.ok ⟨some [], [], none⟩
      ∧ (⟨some [], [], none⟩ : ManyPayload).data = some []) :=
  ⟨rfl, C6_empty_many none ⟨some [], [], none⟩ rfl⟩

/-! ## Claim C7 — empty/nil relationship fields contribute nothing -/

/-- C7: a `relation`-tagged field holding an empty collection or a nil
single-valued reference is skipped entirely: visiting the object is
identical to visiting it without that field, so no relationships entry is
created under the field's wire name, no target object is visited, and
nothing is inserted into the included accumulator. -/
theorem C7_empty_relation (tag : String) (v : FieldVal) (rest : Fields)
    (node : Node) (er : Option Err) (inc : Inc) (sl : Bool)
    (hhead : (goSplit tag ',').headD "" = "relation")
    (hlen : 2 ≤ (goSplit tag ',').length)
    (hv : v = FieldVal.relSlice Models.nil ∨ v = FieldVal.relPtrNil) :
    visitFields (.cons tag v rest) node er inc sl
      = visitFields rest node er inc sl := by
  have hne : ¬ tag = "" := by
    intro htag
    rw [htag] at hhead
    exact absurd hhead.symm (by decide)
  rw [visitFields_cons, if_neg hne, if_neg (by omega)]
  rw [if_neg (by
    intro hc
    rcases hc with ⟨h1, _⟩ | ⟨_, h2⟩
    · rw [hhead] at h1; exact absurd h1 (by decide)
    · omega)]
  rw [if_neg (by rw [hhead]; decide), if_neg (by rw [hhead]; decide),
    if_neg (by rw [hhead]; decide), if_pos hhead]
  rcases hv with rfl | rfl <;> rfl

/-- C7 witness: a concrete empty-slice relationship field and a concrete nil
pointer relationship field, both skipped. -/
theorem C7_empty_relation_witness :
    ((goSplit "relation,pet" ',').headD "" = "relation"
      ∧ 2 ≤ (goSplit "relation,pet" ',').length)
    ∧ visitFields (.cons "relation,pet" (FieldVal.relSlice Models.nil) .nil)
        (.mk "" "" "" none none) none [] true
      = visitFields .nil (.mk "" "" "" none none) none [] true
    ∧ visitFields (.cons "relation,pet" FieldVal.relPtrNil .nil)
        (.mk "" "" "" none none) none [] true
      = visitFields .nil (.mk "" "" "" none none) none [] true :=
  ⟨⟨by decide, by decide⟩,
    C7_empty_relation "relation,pet" (FieldVal.relSlice Models.nil) .nil
      (.mk "" "" "" none none) none [] true (by decide) (by decide) (Or.inl rfl),
    C7_empty_relation "relation,pet" FieldVal.relPtrNil .nil
      (.mk "" "" "" none none) none [] true (by decide) (by decide) (Or.inr rfl)⟩

/-! ## Claims C8 and C9 — attribute emission -/

theorem visitFields_primary_str (ptag ty i : String) (rest : Fields) (node : Node)
    (er : Option Err) (inc : Inc) (sl : Bool)
    (hp : goSplit ptag ',' = ["primary", ty]) :
    visitFields (.cons ptag (.prim (.str i)) rest) node er inc sl
      = visitFields rest ((node.withID i).withTy ty) er inc sl := by
  have hne : ¬ ptag = "" := by
    intro h
    rw [h] at hp
    rw [show goSplit "" ',' = [""] from rfl] at hp
    simp at hp
  rw [visitFields_cons, if_neg hne, hp]
  rw [if_neg (by simp [clientIDTag]), if_neg (by simp [clientIDTag]), if_pos (by simp [clientIDTag])]
  rfl

theorem visitFields_attr_timeVal (atag name : String) (oe : Bool) (t : GoTime)
    (rest : Fields) (node : Node) (er : Option Err) (inc : Inc) (sl : Bool)
    (ha : goSplit atag ',' = if oe then ["attr", name, "omitempty"] else ["attr", name]) :
    visitFields (.cons atag (.timeVal t) rest) node er inc sl
      = visitFields rest (node.withAttrs (some (if t.isZero then node.attrs.getD []
          else setAttr (node.attrs.getD []) name (.timeSec t.unix)))) er inc sl := by
  cases oe with
  | false =>
    rw [if_neg (by simp [clientIDTag])] at ha
    have hne : ¬ atag = "" := by
      intro h
      rw [h] at ha
      rw [show goSplit "" ',' = [""] from rfl] at ha
      simp at ha
    rw [visitFields_cons, if_neg hne, ha]
    rw [if_neg (by simp [clientIDTag]), if_neg (by simp [clientIDTag]), if_neg (by simp [clientIDTag]), if_neg (by simp [clientIDTag]),
      if_pos (by simp [clientIDTag])]
    simp only []
    by_cases hz : t.isZero = true
    · rw [if_pos hz, if_pos hz]
    · rw [if_neg hz, if_neg hz]
      rfl
  | true =>
    rw [if_pos (by simp [clientIDTag])] at ha
    have hne : ¬ atag = "" := by
      intro h
      rw [h] at ha
      rw [show goSplit "" ',' = [""] from rfl] at ha
      simp at ha
    rw [visitFields_cons, if_neg hne, ha]
    rw [if_neg (by simp [clientIDTag]), if_neg (by simp [clientIDTag]), if_neg (by simp [clientIDTag]), if_neg (by simp [clientIDTag]),
      if_pos (by simp [clientIDTag])]
    simp only []
    by_cases hz : t.isZero = true
    · rw [if_pos hz, if_pos hz]
    · rw [if_neg hz, if_neg hz]
      rfl

theorem visitFields_attr_timePtrNil (atag name : String) (oe : Bool)
    (rest : Fields) (node : Node) (er : Option Err) (inc : Inc) (sl : Bool)
    (ha : goSplit atag ',' = if oe then ["attr", name, "omitempty"] else ["attr", name]) :
    visitFields (.cons atag .timePtrNil rest) node er inc sl
      = visitFields rest (node.withAttrs (some (if oe then node.attrs.getD []
          else setAttr (node.attrs.getD []) name .nullv))) er inc sl := by
  cases oe with
  | false =>
    rw [if_neg (by simp [clientIDTag])] at ha
    have hne : ¬ atag = "" := by
      intro h
      rw [h] at ha
      rw [show goSplit "" ',' = [""] from rfl] at ha
      simp at ha
    rw [visitFields_cons, if_neg hne, ha]
    rw [if_neg (by simp [clientIDTag]), if_neg (by simp [clientIDTag]), if_neg (by simp [clientIDTag]), if_neg (by simp [clientIDTag]),
      if_pos (by simp [clientIDTag])]
    simp only []
    rw [if_neg (by simp [clientIDTag]), if_neg (by simp [clientIDTag])]
    rfl
  | true =>
    rw [if_pos (by simp [clientIDTag])] at ha
    have hne : ¬ atag = "" := by
      intro h
      rw [h] at ha
      rw [show goSplit "" ',' = [""] from rfl] at ha
      simp at ha
    rw [visitFields_cons, if_neg hne, ha]
    rw [if_neg (by simp [clientIDTag]), if_neg (by simp [clientIDTag]), if_neg (by simp [clientIDTag]), if_neg (by simp [clientIDTag]),
      if_pos (by simp [clientIDTag])]
    simp only []
    rw [if_pos (by simp [clientIDTag]), if_pos (by simp [clientIDTag])]

theorem visitFields_attr_timePtrSome (atag name : String) (oe : Bool) (t : GoTime)
    (rest : Fields) (node : Node) (er : Option Err) (inc : Inc) (sl : Bool)
    (ha : goSplit atag ',' = if oe then ["attr", name, "omitempty"] else ["attr", name]) :
    visitFields (.cons atag (.timePtrSome t) rest) node er inc sl
      = visitFields rest (node.withAttrs (some (if t.isZero && oe then node.attrs.getD []
          else setAttr (node.attrs.getD []) name (.timeSec t.unix)))) er inc sl := by
  cases oe with
  | false =>
    rw [if_neg (by simp [clientIDTag])] at ha
    have hne : ¬ atag = "" := by
      intro h
      rw [h] at ha
      rw [show goSplit "" ',' = [""] from rfl] at ha
      simp at ha
    rw [visitFields_cons, if_neg hne, ha]
    rw [if_neg (by simp [clientIDTag]), if_neg (by simp [clientIDTag]), if_neg (by simp [clientIDTag]), if_neg (by simp [clientIDTag]),
      if_pos (by simp [clientIDTag])]
    simp only []
    rw [if_neg (by simp), if_neg (by simp)]
    rfl
  | true =>
    rw [if_pos (by simp [clientIDTag])] at ha
    have hne : ¬ atag = "" := by
      intro h
      rw [h] at ha
      rw [show goSplit "" ',' = [""] from rfl] at ha
      simp at ha
    rw [visitFields_cons, if_neg hne, ha]
    rw [if_neg (by simp [clientIDTag]), if_neg (by simp [clientIDTag]), if_neg (by simp [clientIDTag]), if_neg (by simp [clientIDTag]),
      if_pos (by simp [clientIDTag])]
    simp only []
    by_cases hz : t.isZero = true
    · rw [if_pos (by simp [hz]), if_pos (by simp [hz])]
    · rw [if_neg (by simp [hz]), if_neg (by simp [hz])]
      rfl

theorem visitFields_attr_prim (atag name : String) (oe : Bool) (p : Prim)
    (rest : Fields) (node : Node) (er : Option Err) (inc : Inc) (sl : Bool)
    (ha : goSplit atag ',' = if oe then ["attr", name, "omitempty"] else ["attr", name]) :
    visitFields (.cons atag (.prim p) rest) node er inc sl
      = visitFields rest (node.withAttrs (some (if oe && p.isZeroValue then node.attrs.getD []
          else setAttr (node.attrs.getD []) name (.ofPrim p)))) er inc sl := by
  cases oe with
  | false =>
    rw [if_neg (by simp [clientIDTag])] at ha
    have hne : ¬ atag = "" := by
      intro h
      rw [h] at ha
      rw [show goSplit "" ',' = [""] from rfl] at ha
      simp at ha
    rw [visitFields_cons, if_neg hne, ha]
    rw [if_neg (by simp [clientIDTag]), if_neg (by simp [clientIDTag]), if_neg (by simp [clientIDTag]), if_neg (by simp [clientIDTag]),
      if_pos (by simp [clientIDTag])]
    simp only []
    rw [if_neg (by simp), if_neg (by simp)]
    rfl
  | true =>
    rw [if_pos (by simp [clientIDTag])] at ha
    have hne : ¬ atag = "" := by
      intro h
      rw [h] at ha
      rw [show goSplit "" ',' = [""] from rfl] at ha
      simp at ha
    rw [visitFields_cons, if_neg hne, ha]
    rw [if_neg (by simp [clientIDTag]), if_neg (by simp [clientIDTag]), if_neg (by simp [clientIDTag]), if_neg (by simp [clientIDTag]),
      if_pos (by simp [clientIDTag])]
    simp only []
    by_cases hz : p.isZeroValue = true
    · rw [if_pos (by simp [hz]), if_pos (by simp [hz])]
    · rw [if_neg (by simp [hz]), if_neg (by simp [hz])]
      rfl

/-- C8: timestamp attribute emission (response.go:387-411), end to end on an
object with a primary field and one timestamp attribute field. A bare
`time.Time` that is the zero time is omitted whether or not omitempty was
requested (and a non-zero one is stored as `t.Unix()`); a nil `*time.Time`
is omitted when omitempty was requested and stored as an explicit null
otherwise; a set `*time.Time` holding the zero time is omitted exactly when
omitempty was requested. (The attributes map itself is materialized before
the omission check, so an omitted attribute leaves an empty map, never the
key.) -/
theorem C8_time_attr (ptag atag ty i name : String) (oe : Bool) (t : GoTime)
    (hp : goSplit ptag ',' = ["primary", ty])
    (ha : goSplit atag ',' = if oe then ["attr", name, "omitempty"] else ["attr", name]) :
    (MarshalOne (.mk (.cons ptag (.prim (.str i)) (.cons atag (.timeVal t) .nil)))
      = Except.ok ⟨.mk ty i ""
          (some (if t.isZero then [] else [(name, AttrVal.timeSec t.unix)])) none, []⟩)
    ∧ (MarshalOne (.mk (.cons ptag (.prim (.str i)) (.cons atag .timePtrNil .nil)))
      = Except.ok ⟨.mk ty i ""
          (some (if oe then [] else [(name, AttrVal.nullv)])) none, []⟩)
    ∧ (MarshalOne (.mk (.cons ptag (.prim (.str i)) (.cons atag (.timePtrSome t) .nil)))
      = Except.ok ⟨.mk ty i ""
          (some (if t.isZero && oe then [] else [(name, AttrVal.timeSec t.unix)])) none, []⟩) := by
  refine ⟨?_, ?_, ?_⟩
  · unfold MarshalOne
    rw [visitModelNode.eq_def]
    simp only []
    rw [visitFields_primary_str ptag ty i _ _ _ _ _ hp]
    rw [visitFields_attr_timeVal atag name oe t _ _ _ _ _ ha]
    rw [visitFields_nil]
    simp only [Node.withID, Node.withTy, Node.withAttrs, Node.attrs, Option.getD_none]
    split <;> simp [nodeMapValues, setAttr]
  · unfold MarshalOne
    rw [visitModelNode.eq_def]
    simp only []
    rw [visitFields_primary_str ptag ty i _ _ _ _ _ hp]
    rw [visitFields_attr_timePtrNil atag name oe _ _ _ _ _ ha]
    rw [visitFields_nil]
    simp only [Node.withID, Node.withTy, Node.withAttrs, Node.attrs, Option.getD_none]
    split <;> simp [nodeMapValues, setAttr]
  · unfold MarshalOne
    rw [visitModelNode.eq_def]
    simp only []
    rw [visitFields_primary_str ptag ty i _ _ _ _ _ hp]
    rw [visitFields_attr_timePtrSome atag name oe t _ _ _ _ _ ha]
    rw [visitFields_nil]
    simp only [Node.withID, Node.withTy, Node.withAttrs, Node.attrs, Option.getD_none]
    split <;> simp [nodeMapValues, setAttr]

/-- C8 witness: concrete tags, omitempty requested, a non-zero time. -/
theorem C8_time_attr_witness :
    (goSplit "primary,people" ',' = ["primary", "people"]
      ∧ goSplit "attr,when,omitempty" ','
          = (if true then ["attr", "when", "omitempty"] else ["attr", "when"]))
    ∧ (MarshalOne (.mk (.cons "primary,people" (.prim (.str "9"))
          (.cons "attr,when,omitempty" (.timeVal ⟨100, 0, 0⟩) .nil)))
      = Except.ok ⟨.mk "people" "9" ""
          (some (if (⟨100, 0, 0⟩ : GoTime).isZero then []
            else [("when", AttrVal.timeSec (⟨100, 0, 0⟩ : GoTime).unix)])) none, []⟩)
    ∧ (MarshalOne (.mk (.cons "primary,people" (.prim (.str "9"))
          (.cons "attr,when,omitempty" .timePtrNil .nil)))
      = Except.ok ⟨.mk "people" "9" ""
          (some (if true then [] else [("when", AttrVal.nullv)])) none, []⟩) :=
  ⟨⟨by decide, by decide⟩,
    (C8_time_attr "primary,people" "attr,when,omitempty" "people" "9" "when" true
      ⟨100, 0, 0⟩ (by decide) (by decide)).1,
    (C8_time_attr "primary,people" "attr,when,omitempty" "people" "9" "when" true
      ⟨100, 0, 0⟩ (by decide) (by decide)).2.1⟩

/-- C9: non-timestamp attribute emission (response.go:412-427), end to end.
The attribute is absent from the attributes mapping exactly when omitempty
was requested and the value equals its type's zero value; otherwise it is
present under the wire name with the value stored verbatim. -/
theorem C9_prim_attr (ptag atag ty i name : String) (oe : Bool) (p : Prim)
    (hp : goSplit ptag ',' = ["primary", ty])
    (ha : goSplit atag ',' = if oe then ["attr", name, "omitempty"] else ["attr", name]) :
    MarshalOne (.mk (.cons ptag (.prim (.str i)) (.cons atag (.prim p) .nil)))
      = Except.ok ⟨.mk ty i ""
          (some (if oe && p.isZeroValue then [] else [(name, AttrVal.ofPrim p)])) none, []⟩ := by
  unfold MarshalOne
  rw [visitModelNode.eq_def]
  simp only []
  rw [visitFields_primary_str ptag ty i _ _ _ _ _ hp]
  rw [visitFields_attr_prim atag name oe p _ _ _ _ _ ha]
  rw [visitFields_nil]
  simp only [Node.withID, Node.withTy, Node.withAttrs, Node.attrs, Option.getD_none]
  split <;> simp [nodeMapValues, setAttr]

/-- C9 witness: a zero-valued integer attribute without omitempty is present
verbatim; with omitempty it is absent. -/
theorem C9_prim_attr_witness :
    (goSplit "primary,people" ',' = ["primary", "people"]
      ∧ goSplit "attr,age" ','
          = (if false then ["attr", "age", "omitempty"] else ["attr", "age"])
      ∧ goSplit "attr,age,omitempty" ','
          = (if true then ["attr", "age", "omitempty"] else ["attr", "age"]))
    ∧ MarshalOne (.mk (.cons "primary,people" (.prim (.str "9"))
          (.cons "attr,age" (.prim (.int 0)) .nil)))
      = Except.ok ⟨.mk "people" "9" ""
          (some (if false && (Prim.int 0).isZeroValue then []
            else [("age", AttrVal.ofPrim (Prim.int 0))])) none, []⟩
    ∧ MarshalOne (.mk (.cons "primary,people" (.prim (.str "9"))
          (.cons "attr,age,omitempty" (.prim (.int 0)) .nil)))
      = Except.ok ⟨.mk "people" "9" ""
          (some (if true && (Prim.int 0).isZeroValue then []
            else [("age", AttrVal.ofPrim (Prim.int 0))])) none, []⟩ :=
  ⟨⟨by decide, by decide, by decide⟩,
    C9_prim_attr "primary,people" "attr,age" "people" "9" "age" false (.int 0)
      (by decide) (by decide),
    C9_prim_attr "primary,people" "attr,age,omitempty" "people" "9" "age" true (.int 0)
      (by decide) (by decide)⟩
